import Mathlib

/-!
# monitoring-go-sdk: the metric adapter and its tick loop

A shallow embedding of `monitoring.go`, `prometheus.go` and the descriptor list of
`example/main.go`, in two parts.

Part I takes the backend as ideal.  Its conventions:

* Go `int` and `time.Duration` are `Int`; no arithmetic is done on them.
* `float64` is taken as the exact rationals (`Float64 := ℚ`): rounding, infinities and NaN
  are outside this part.
* A producer (`Getter func() float64`) is `Option (Nat → Float64)`: `none` is the nil
  function, `some g` returns `g i` at its `i`-th call, so a producer may return a different
  number at every call.
* Code that may end the process returns an `Exec`: it returns normally, stops in
  `log.Fatal`, or stops in an unrecovered Go panic.  Each case carries the state reached.
* The timer of `runJob` is real time; it is represented by the number of times it fired.
* The objects of the backend library `github.com/prometheus/client_golang`
  (`prometheus.Gauge`, `prometheus.Counter`, the default registry) are not part of this
  repository; they are described in the namespace `prometheus` by their documented
  contract.  Registering a metric is taken to succeed.

Part II (namespace `Go`) embeds the same functions over the backend as the library
implements it: IEEE-754 `float64`, the two accumulators of the library counter, a registry
that refuses names, and the panic of `time.NewTicker`.  C2, C4, C5, C7 and C8 are stated
there; C1, C3, C6, C9 and C10 are stated in Part I.
-/

/-- Go `float64`, idealised as an exact rational number. -/
abbrev Float64 := ℚ

/-- The way a piece of Go code ends, over a state `σ` and with result type `α`. -/
inductive Exec (σ α : Type) where
  /-- Normal return with result `a`, leaving state `s`. -/
  | ret (a : α) (s : σ)
  /-- The code called `log.Fatal msg`: the message is logged and the process exits with
  status 1.  The state `s` is the one reached when the process exits. -/
  | fatal (msg : String) (s : σ)
  /-- An unrecovered run-time panic: the process crashes in state `s`. -/
  | crash (msg : String) (s : σ)

namespace Exec

/-- The state reached, however the code ended. -/
def state {σ α : Type} : Exec σ α → σ
  | ret _ s => s
  | fatal _ s => s
  | crash _ s => s

end Exec

/-! ## The backend library objects -/

namespace prometheus

/-- The gauge of the backend library (`prometheus.Gauge`): its options and current value. -/
structure Gauge where
  Name : String
  Help : String
  val : Float64

/-- The counter of the backend library (`prometheus.Counter`). -/
structure Counter where
  Name : String
  Help : String
  val : Float64

/-- Library `NewGauge(GaugeOpts{Name, Help})`: a gauge reading zero. -/
def NewGauge (name help : String) : Gauge := ⟨name, help, 0⟩

/-- Library `NewCounter(CounterOpts{Name, Help})`: a counter reading zero. -/
def NewCounter (name help : String) : Counter := ⟨name, help, 0⟩

/-- Library `Gauge.Set`: stores the value. -/
def Gauge.Set (g : Gauge) (v : Float64) : Gauge := { g with val := v }

/-- Library `Gauge.Add`: adds the value, which may be negative. -/
def Gauge.Add (g : Gauge) (v : Float64) : Gauge := { g with val := g.val + v }

/-- Library `Gauge.Inc`, which is `Add(1)`. -/
def Gauge.Inc (g : Gauge) : Gauge := g.Add 1

/-- Library `Gauge.Dec`, which is `Add(-1)`. -/
def Gauge.Dec (g : Gauge) : Gauge := g.Add (-1)

/-- Library `Gauge.Sub`, which is `Add(val * -1)`. -/
def Gauge.Sub (g : Gauge) (v : Float64) : Gauge := g.Add (v * -1)

/-- Library `Counter.Inc`: adds one. -/
def Counter.Inc (c : Counter) : Counter := { c with val := c.val + 1 }

/-- Library `Counter.Add`.  Its documentation reads "Add adds the given value to the
counter. It panics if the value is < 0.", the panic message being
"counter cannot decrease in value". -/
def Counter.Add (c : Counter) (v : Float64) : Exec Counter Unit :=
  if v < 0 then .crash "counter cannot decrease in value" c
  else .ret () { c with val := c.val + v }

/-- What the default registry of the library holds. -/
inductive Collector where
  | gauge (g : Gauge)
  | counter (c : Counter)

/-- Library `promauto.NewGauge`: makes the gauge and registers it with the default
registry `reg`.  Registration is taken to succeed: the library panics on a name that is
invalid or already registered, and names are not examined here. -/
def promauto.NewGauge (name help : String) (reg : List Collector) : Gauge × List Collector :=
  (prometheus.NewGauge name help, reg ++ [Collector.gauge (prometheus.NewGauge name help)])

/-- Library `promauto.NewCounter`: makes the counter and registers it with the default
registry `reg`, under the same convention as `promauto.NewGauge`. -/
def promauto.NewCounter (name help : String) (reg : List Collector) :
    Counter × List Collector :=
  (prometheus.NewCounter name help, reg ++ [Collector.counter (prometheus.NewCounter name help)])

/-- Library `promhttp.Handler()`: the scrape handler of the default registry.  Serving
requests is outside this development, so the handler is a token. -/
inductive promhttp.Handler where
  | default

end prometheus

/-! ## monitoring.go -/

namespace monitoring

/-- Supported monitoring application: `Prometheus = iota`. -/
def Prometheus : Int := 0

/-- Metric type `Counter = iota`. -/
def Counter : Int := 0
/-- Metric type `Gauge`. -/
def Gauge : Int := 1

/-- Operation `Set = iota`. -/
def Set : Int := 0
/-- Operation `Add`. -/
def Add : Int := 1
/-- Operation `Sub`. -/
def Sub : Int := 2
/-- Operation `Increment`. -/
def Increment : Int := 3
/-- Operation `Decrement`. -/
def Decrement : Int := 4

/-- The struct `Metric`: one metric descriptor. -/
structure Metric where
  Name : String
  Desc : String
  MetricType : Int
  OperationType : Int
  UpdateInterval : Int
  Getter : Option (Nat → Float64)

/-! ## prometheus.go -/

/-- The struct `GaugeJob`: it wraps the library gauge in its field `Job`. -/
structure GaugeJob where
  Job : prometheus.Gauge

/-- The struct `CounterJob`: it wraps the library counter in its field `Job`. -/
structure CounterJob where
  Job : prometheus.Counter

/-- Method `(*GaugeJob).Increment`: `job.Job.Inc()`. -/
def GaugeJob.Increment (job : GaugeJob) : Exec GaugeJob Unit := .ret () ⟨job.Job.Inc⟩
/-- Method `(*GaugeJob).Decrement`: `job.Job.Dec()`. -/
def GaugeJob.Decrement (job : GaugeJob) : Exec GaugeJob Unit := .ret () ⟨job.Job.Dec⟩
/-- Method `(*GaugeJob).Set`: `job.Job.Set(val)`. -/
def GaugeJob.Set (job : GaugeJob) (val : Float64) : Exec GaugeJob Unit :=
  .ret () ⟨job.Job.Set val⟩
/-- Method `(*GaugeJob).Add`: `job.Job.Add(val)`. -/
def GaugeJob.Add (job : GaugeJob) (val : Float64) : Exec GaugeJob Unit :=
  .ret () ⟨job.Job.Add val⟩
/-- Method `(*GaugeJob).Subtract`: `job.Job.Sub(val)`. -/
def GaugeJob.Subtract (job : GaugeJob) (val : Float64) : Exec GaugeJob Unit :=
  .ret () ⟨job.Job.Sub val⟩

/-- Method `(*CounterJob).Set`: `log.Fatal`. -/
def CounterJob.Set (job : CounterJob) (_val : Float64) : Exec CounterJob Unit :=
  .fatal "no set function from Counter metric" job
/-- Method `(*CounterJob).Increment`: `job.Job.Inc()`. -/
def CounterJob.Increment (job : CounterJob) : Exec CounterJob Unit := .ret () ⟨job.Job.Inc⟩
/-- Method `(*CounterJob).Decrement`: `log.Fatal`. -/
def CounterJob.Decrement (job : CounterJob) : Exec CounterJob Unit :=
  .fatal "no dec function from Counter metrics" job
/-- Method `(*CounterJob).Add`: `job.Job.Add(val)`; a panic of the library call leaves the
counter as it was. -/
def CounterJob.Add (job : CounterJob) (val : Float64) : Exec CounterJob Unit :=
  match job.Job.Add val with
  | .ret _ c => .ret () ⟨c⟩
  | .fatal msg c => .fatal msg ⟨c⟩
  | .crash msg c => .crash msg ⟨c⟩
/-- Method `(*CounterJob).Subtract`: `log.Fatal`. -/
def CounterJob.Subtract (job : CounterJob) (_val : Float64) : Exec CounterJob Unit :=
  .fatal "no substitute function from Counter metrics" job

/-- A value of the interface type `job`: a `*GaugeJob`, a `*CounterJob`, or the nil
interface value, which is what `newJob` returns for a type it does not know. -/
inductive job where
  | gauge (j : GaugeJob)
  | counter (j : CounterJob)
  | nil

/-- Lifts the outcome of a method of `*GaugeJob` to the interface value. -/
def job.ofGauge : Exec GaugeJob Unit → Exec job Unit
  | .ret a j => .ret a (.gauge j)
  | .fatal msg j => .fatal msg (.gauge j)
  | .crash msg j => .crash msg (.gauge j)

/-- Lifts the outcome of a method of `*CounterJob` to the interface value. -/
def job.ofCounter : Exec CounterJob Unit → Exec job Unit
  | .ret a j => .ret a (.counter j)
  | .fatal msg j => .fatal msg (.counter j)
  | .crash msg j => .crash msg (.counter j)

/-- The run-time panic of a method call on the nil interface value. -/
def nilDereference : Exec job Unit :=
  .crash "invalid memory address or nil pointer dereference" job.nil

/-- Interface method `job.Set`, dispatched on the dynamic type. -/
def job.Set : job → Float64 → Exec job Unit
  | .gauge j, val => job.ofGauge (j.Set val)
  | .counter j, val => job.ofCounter (j.Set val)
  | .nil, _ => nilDereference
/-- Interface method `job.Increment`. -/
def job.Increment : job → Exec job Unit
  | .gauge j => job.ofGauge j.Increment
  | .counter j => job.ofCounter j.Increment
  | .nil => nilDereference
/-- Interface method `job.Decrement`. -/
def job.Decrement : job → Exec job Unit
  | .gauge j => job.ofGauge j.Decrement
  | .counter j => job.ofCounter j.Decrement
  | .nil => nilDereference
/-- Interface method `job.Add`. -/
def job.Add : job → Float64 → Exec job Unit
  | .gauge j, val => job.ofGauge (j.Add val)
  | .counter j, val => job.ofCounter (j.Add val)
  | .nil, _ => nilDereference
/-- Interface method `job.Subtract`. -/
def job.Subtract : job → Float64 → Exec job Unit
  | .gauge j, val => job.ofGauge (j.Subtract val)
  | .counter j, val => job.ofCounter (j.Subtract val)
  | .nil, _ => nilDereference

/-- The number a handle reads: the value of the wrapped library object (`none` for nil). -/
def job.value : job → Option Float64
  | .gauge j => some j.Job.val
  | .counter j => some j.Job.val
  | .nil => none

/-- The struct `PrometheusClient`. -/
structure PrometheusClient where
  Handler : prometheus.promhttp.Handler
  Metrics : List Metric

/-- The interface `Client`; `*PrometheusClient` is the one type made for it.  The interface
declares `Init(labels []Metric)`, while prometheus.go gives the client `SetMetrics(metrics)`
and `Init()`; the methods of prometheus.go are the ones embedded, so initializing a client
with a list of descriptors is `SetMetrics` followed by `Init`. -/
abbrev Client := PrometheusClient

/-- A goroutine started by `go client.runJob(...)`, with the arguments it was given. -/
structure Task where
  job : job
  interval : Int
  operationType : Int
  getter : Option (Nat → Float64)

/-- The process-wide state the package acts on: the default registry of the backend
library and the goroutines started so far, both in order of creation. -/
structure Process where
  registry : List prometheus.Collector
  goroutines : List Task

/-- A process in which nothing has been registered or started. -/
def Process.fresh : Process := ⟨[], []⟩

/-- Function `newPrometheus`. -/
def newPrometheus : Client := { Handler := prometheus.promhttp.Handler.default, Metrics := [] }

/-- Method `SetMetrics` (its logging is left out). -/
def PrometheusClient.SetMetrics (client : PrometheusClient) (metrics : List Metric) : Client :=
  { client with Metrics := metrics }

/-- Method `GetHandler`. -/
def PrometheusClient.GetHandler (client : PrometheusClient) : prometheus.promhttp.Handler :=
  client.Handler

/-- Method `newJob`: a `switch` on the metric type with no default case, then `return nil`. -/
def PrometheusClient.newJob (_client : PrometheusClient) (t : Int) (name desc : String)
    (p : Process) : Exec Process job :=
  if t = Gauge then
    let r := prometheus.promauto.NewGauge name desc p.registry
    .ret (job.gauge ⟨r.1⟩) { p with registry := r.2 }
  else if t = Counter then
    let r := prometheus.promauto.NewCounter name desc p.registry
    .ret (job.counter ⟨r.1⟩) { p with registry := r.2 }
  else .ret job.nil p

/-- Method `getOperation`: the closure for the operation, or `log.Fatal` in the default
case.  The closure captures `prometheusJob`; it is a function of `Unit` here. -/
def PrometheusClient.getOperation (_client : PrometheusClient) (operationType : Int)
    (prometheusJob : job) (value : Float64) : Exec job (Unit → Exec job Unit) :=
  if operationType = Set then .ret (fun _ => prometheusJob.Set value) prometheusJob
  else if operationType = Increment then .ret (fun _ => prometheusJob.Increment) prometheusJob
  else if operationType = Decrement then .ret (fun _ => prometheusJob.Decrement) prometheusJob
  else if operationType = Add then .ret (fun _ => prometheusJob.Add value) prometheusJob
  else if operationType = Sub then .ret (fun _ => prometheusJob.Subtract value) prometheusJob
  else .fatal "unknown operation type" prometheusJob

/-- The variable `value` of `runJob`: `float64(0)`, replaced by `getter()` when the getter
is not nil.  `i` counts the calls of the getter made so far. -/
def tickValue (getter : Option (Nat → Float64)) (i : Nat) : Float64 :=
  match getter with
  | none => 0
  | some g => g i

/-- The body of the loop of `runJob`, run once per firing of the ticker: compute `value`,
then get the operation and run it directly. -/
def PrometheusClient.tick (client : PrometheusClient) (job : monitoring.job)
    (operationType : Int) (getter : Option (Nat → Float64)) (i : Nat) :
    Exec monitoring.job Unit :=
  let value : Float64 := tickValue getter i
  match client.getOperation operationType job value with
  | .ret operation _ => operation ()
  | .fatal msg s => .fatal msg s
  | .crash msg s => .crash msg s

/-- Method `runJob`, observed after the ticker has fired `n` times.  The loop never ends
by itself: `ret` here means the goroutine is alive and waits for the next firing.  Once a
tick has ended the process no later tick runs. -/
def PrometheusClient.runJob (client : PrometheusClient) (job : monitoring.job)
    (interval : Int) (operationType : Int) (getter : Option (Nat → Float64)) :
    Nat → Exec monitoring.job Unit
  | 0 => .ret () job
  | n + 1 =>
    match client.runJob job interval operationType getter n with
    | .ret _ j => client.tick j operationType getter n
    | .fatal msg s => .fatal msg s
    | .crash msg s => .crash msg s

/-- The loop of `Init` over the metrics still to be handled: make the job, start the
goroutine. -/
def PrometheusClient.initLoop (client : PrometheusClient) :
    List Metric → Process → Exec Process Unit
  | [], p => .ret () p
  | metric :: rest, p =>
    match client.newJob metric.MetricType metric.Name metric.Desc p with
    | .ret prometheusJob p1 =>
      client.initLoop rest { p1 with goroutines := p1.goroutines ++
        [⟨prometheusJob, metric.UpdateInterval, metric.OperationType, metric.Getter⟩] }
    | .fatal msg s => .fatal msg s
    | .crash msg s => .crash msg s

/-- Method `Init`: `for _, metric := range client.Metrics`. -/
def PrometheusClient.Init (client : PrometheusClient) (p : Process) : Exec Process Unit :=
  client.initLoop client.Metrics p

/-- Function `New`. -/
def New (app : Int) (p : Process) : Exec Process Client :=
  if app = Prometheus then .ret newPrometheus p
  else .fatal "unknown metric instrument" p

/-! ## The handle and the goroutine a descriptor gets -/

/-- The value `newJob` returns for a descriptor. -/
def Metric.handle (m : Metric) : job :=
  if m.MetricType = Gauge then job.gauge ⟨prometheus.NewGauge m.Name m.Desc⟩
  else if m.MetricType = Counter then job.counter ⟨prometheus.NewCounter m.Name m.Desc⟩
  else job.nil

/-- What making a handle adds to the default registry: the wrapped library object, and
nothing for nil. -/
def job.registered : job → List prometheus.Collector
  | .gauge j => [prometheus.Collector.gauge j.Job]
  | .counter j => [prometheus.Collector.counter j.Job]
  | .nil => []

/-- The goroutine `Init` starts for a descriptor. -/
def Metric.task (m : Metric) : Task :=
  ⟨m.handle, m.UpdateInterval, m.OperationType, m.Getter⟩

end monitoring

/-! ## example/main.go -/

namespace main

open monitoring

/-- The descriptor list built in `main`.  `getAverage` stands for `metricData.getAverage`,
whose results depend on the random data fed to it. -/
def metrics (getAverage : Nat → Float64) : List Metric :=
  [ { Name := "gauge_metric_test",
      Desc := "this metric will always be changed on every 3 second",
      MetricType := Gauge, OperationType := Set,
      UpdateInterval := 1000000000 * 3, Getter := some getAverage },
    { Name := "counter_metric_test",
      Desc := "this metric will always be incremented by 1 every 5 second",
      MetricType := Counter, OperationType := Increment,
      UpdateInterval := 1000000000 * 5, Getter := none },
    { Name := "counter_metric_test_add_by_2",
      Desc := "this metric will always be incremented by 2 every 10 second",
      MetricType := Counter, OperationType := Add,
      UpdateInterval := 1000000000 * 10, Getter := some (fun _ => 3) } ]

end main

/-! # Part II: the package over the backend as the library implements it

The definitions above take numbers as exact, let every registration succeed and leave the
timer out.  The namespace `Go` embeds the same functions once more over what the program
runs on:

* `Go.float64` is IEEE-754 binary64 with round-to-nearest-even (one NaN, both zeros,
  both infinities, subnormal numbers);
* `Go.prometheus.Counter` has the two accumulators of the library counter, a `uint64`
  that wraps modulo 2^64 and a `float64`, and its value is their `float64` sum;
* registering a metric panics on an invalid name and on a name already registered;
* `runJob` starts with `time.NewTicker(interval)`, which panics unless the interval is
  positive.
-/

namespace Go

/-- An IEEE-754 binary64 number: NaN (one value stands for all NaN patterns), an infinity,
or a finite number given by its sign bit, its 11-bit biased exponent field (0 to 2046) and
its 52-bit fraction field.  With exponent field `e` and fraction `f` the magnitude is
`f * 2^(-1074)` when `e = 0` and `(2^52 + f) * 2^(e - 1075)` otherwise. -/
inductive float64 where
  | nan
  | inf (neg : Bool)
  | fin (neg : Bool) (exp : Fin 2047) (frac : Fin 4503599627370496)
  deriving DecidableEq

namespace float64

/-- The integer significand of a finite number with the given fields. -/
def mant (exp frac : Nat) : Nat := if exp = 0 then frac else 4503599627370496 + frac

/-- The exponent of a finite number, biased by 1075: the magnitude is
`mant * 2^(scale - 1075)`. -/
def scale (exp : Nat) : Nat := if exp = 0 then 1 else exp

/-- The finite number with the given fields, or the infinity of that sign when the
exponent field overflows. -/
def pack (neg : Bool) (exp frac : Nat) : float64 :=
  if h : exp < 2047 ∧ frac < 4503599627370496 then fin neg ⟨exp, h.1⟩ ⟨frac, h.2⟩ else inf neg

/-- The number of binary digits of `n`, computed with `fuel` steps at most. -/
def bitLenAux : Nat → Nat → Nat
  | 0, _ => 0
  | fuel + 1, n => if n = 0 then 0 else bitLenAux fuel (n / 2) + 1

/-- The number of binary digits of `n` (0 for 0). -/
def bitLen (n : Nat) : Nat := bitLenAux n n

/-- The integer nearest to `n / 2^d`, ties going to the even one. -/
def rne (n d : Nat) : Nat :=
  if 2 ^ (d - 1) < n % 2 ^ d ∨ (n % 2 ^ d = 2 ^ (d - 1) ∧ (n / 2 ^ d) % 2 = 1) then n / 2 ^ d + 1
  else n / 2 ^ d

/-- The binary64 number nearest to the exact magnitude `n * 2^(E - 2150)`, with the given
sign, ties going to the even significand; a magnitude too large becomes the infinity. -/
def round (neg : Bool) (n E : Nat) : float64 :=
  if n = 0 then pack neg 0 0
  else
    let T := max (E + bitLen n - 53) 1076
    let m := if T ≤ E then n * 2 ^ (E - T) else rne n (T - E)
    if m < 4503599627370496 then pack neg 0 m
    else if m < 9007199254740992 then pack neg (T - 1075) (m - 4503599627370496)
    else pack neg (T - 1074) 0

/-- The operator `+` of Go on `float64`. -/
def add : float64 → float64 → float64
  | nan, _ => nan
  | _, nan => nan
  | inf a, inf b => if a = b then inf a else nan
  | inf a, fin _ _ _ => inf a
  | fin _ _ _, inf b => inf b
  | fin s₁ e₁ f₁, fin s₂ e₂ f₂ =>
    let q := min (scale e₁) (scale e₂)
    let a := mant e₁ f₁ * 2 ^ (scale e₁ - q)
    let b := mant e₂ f₂ * 2 ^ (scale e₂ - q)
    if s₁ = s₂ then round s₁ (a + b) (q + 1075)
    else if a = b then pack false 0 0
    else if b < a then round s₁ (a - b) (q + 1075)
    else round s₂ (b - a) (q + 1075)

/-- The operator `*` of Go on `float64`. -/
def mul : float64 → float64 → float64
  | nan, _ => nan
  | _, nan => nan
  | inf a, inf b => inf (xor a b)
  | inf a, fin s e f => if mant e f = 0 then nan else inf (xor a s)
  | fin s e f, inf b => if mant e f = 0 then nan else inf (xor s b)
  | fin s₁ e₁ f₁, fin s₂ e₂ f₂ =>
    round (xor s₁ s₂) (mant e₁ f₁ * mant e₂ f₂) (scale e₁ + scale e₂)

/-- The unary minus: the sign bit is flipped. -/
def neg : float64 → float64
  | nan => nan
  | inf a => inf (!a)
  | fin s e f => fin (!s) e f

/-- The operator `-`: in IEEE-754 `x - y` is `x + (-y)`. -/
def sub (x y : float64) : float64 := x.add y.neg

/-- An integer that orders the numbers other than NaN as their values are ordered; the
two zeros get the same key. -/
def key : float64 → Int
  | nan => 0
  | inf a => if a then -9218868437227405312 else 9218868437227405312
  | fin s e f =>
    if s then -((e.val * 4503599627370496 + f.val : Nat) : Int)
    else ((e.val * 4503599627370496 + f.val : Nat) : Int)

/-- True for NaN only. -/
def isNaN : float64 → Bool
  | nan => true
  | _ => false

/-- The operator `<` of Go: false when either side is NaN. -/
def lt (x y : float64) : Bool := !x.isNaN && !y.isNaN && decide (x.key < y.key)

/-- The operator `<=` of Go: false when either side is NaN. -/
def le (x y : float64) : Bool := !x.isNaN && !y.isNaN && decide (x.key ≤ y.key)

/-- The operator `==` of Go: false when either side is NaN, true for the two zeros. -/
def eq (x y : float64) : Bool := !x.isNaN && !y.isNaN && decide (x.key = y.key)

/-- The conversion `float64(n)` of a `uint64`: the nearest binary64 number. -/
def ofUInt64 (n : Nat) : float64 := round false n 2150

/-- The conversion `uint64(x)`: the fraction is dropped.  For a value that `uint64` cannot
hold (NaN, an infinity, 2^64 or more, a negative number) Go leaves the result to the
implementation; the results given here are those of amd64. -/
def toUInt64 : float64 → Nat
  | nan => 9223372036854775808
  | inf _ => 9223372036854775808
  | fin s e f =>
    let t := if 1075 ≤ scale e then mant e f * 2 ^ (scale e - 1075)
      else mant e f / 2 ^ (1075 - scale e)
    if s then
      (if t ≤ 9223372036854775808 then (18446744073709551616 - t) % 18446744073709551616
        else 9223372036854775808)
    else if t < 18446744073709551616 then t else 9223372036854775808

/-- The number `+0`, which is `float64(0)`. -/
def zero : float64 := fin false 0 0

/-- The number `1`. -/
def one : float64 := fin false 1023 0

/-- The number `-1`. -/
def negOne : float64 := fin true 1023 0

end float64

namespace prometheus

/-- The gauge of the library: its options and the `float64` it holds (`valBits`). -/
structure Gauge where
  Name : String
  Help : String
  valBits : float64

/-- The counter of the library: its options, the `float64` accumulator `valBits` and the
`uint64` accumulator `valInt`. -/
structure Counter where
  Name : String
  Help : String
  valBits : float64
  valInt : Nat

/-- Library `NewGauge(GaugeOpts{Name, Help})`. -/
def NewGauge (name help : String) : Gauge := ⟨name, help, float64.zero⟩

/-- Library `NewCounter(CounterOpts{Name, Help})`. -/
def NewCounter (name help : String) : Counter := ⟨name, help, float64.zero, 0⟩

/-- Library `(*gauge).Set`: stores the value. -/
def Gauge.Set (g : Gauge) (val : float64) : Gauge := { g with valBits := val }

/-- Library `(*gauge).Add`: stores `old + val`. -/
def Gauge.Add (g : Gauge) (val : float64) : Gauge := { g with valBits := g.valBits.add val }

/-- Library `(*gauge).Inc`: `g.Add(1)`. -/
def Gauge.Inc (g : Gauge) : Gauge := g.Add float64.one

/-- Library `(*gauge).Dec`: `g.Add(-1)`. -/
def Gauge.Dec (g : Gauge) : Gauge := g.Add float64.negOne

/-- Library `(*gauge).Sub`: `g.Add(val * -1)`. -/
def Gauge.Sub (g : Gauge) (val : float64) : Gauge := g.Add (val.mul float64.negOne)

/-- Library `(*counter).Inc`: adds 1 to the `uint64` accumulator. -/
def Counter.Inc (c : Counter) : Counter :=
  { c with valInt := (c.valInt + 1) % 18446744073709551616 }

/-- Library `(*counter).Add`: panics when `v < 0`; with `ival := uint64(v)`, adds `ival` to
the `uint64` accumulator when `float64(ival) == v`, and otherwise stores `old + v` in the
`float64` accumulator. -/
def Counter.Add (c : Counter) (v : float64) : Exec Counter Unit :=
  if v.lt float64.zero then .crash "counter cannot decrease in value" c
  else if (float64.ofUInt64 v.toUInt64).eq v then
    .ret () { c with valInt := (c.valInt + v.toUInt64) % 18446744073709551616 }
  else .ret () { c with valBits := c.valBits.add v }

/-- Library `(*counter).get`, the value the counter shows: the `float64` accumulator plus
`float64` of the `uint64` accumulator. -/
def Counter.get (c : Counter) : float64 := c.valBits.add (float64.ofUInt64 c.valInt)

/-- The rule of the library for metric names, as it stood when the package was written: a
letter, `_` or `:`, followed by letters, digits, `_` and `:`.  The empty name is invalid. -/
def IsValidMetricName (name : String) : Bool :=
  match name.toList with
  | [] => false
  | c :: cs =>
    (c.isAlpha || c == '_' || c == ':') && cs.all fun d => d.isAlphanum || d == '_' || d == ':'

/-- Library `MustRegister` on the default registry, which is given by the names it holds:
it panics on an invalid name and on a name already registered, and adds the name
otherwise.  The panic messages are shortened. -/
def MustRegister (registry : List String) (name : String) : Exec (List String) Unit :=
  if !IsValidMetricName name then .crash "is not a valid metric name" registry
  else if name ∈ registry then
    .crash "duplicate metrics collector registration attempted" registry
  else .ret () (registry ++ [name])

/-- Library `promauto.NewGauge`: registers the name, panicking if that fails, and returns
the new gauge. -/
def promauto.NewGauge (name help : String) (registry : List String) :
    Exec (List String) Gauge :=
  match MustRegister registry name with
  | .ret _ r => .ret (prometheus.NewGauge name help) r
  | .fatal msg r => .fatal msg r
  | .crash msg r => .crash msg r

/-- Library `promauto.NewCounter`: registers the name, panicking if that fails, and
returns the new counter. -/
def promauto.NewCounter (name help : String) (registry : List String) :
    Exec (List String) Counter :=
  match MustRegister registry name with
  | .ret _ r => .ret (prometheus.NewCounter name help) r
  | .fatal msg r => .fatal msg r
  | .crash msg r => .crash msg r

end prometheus

namespace monitoring

/-- Metric type `Counter = iota`. -/
def Counter : Int := 0
/-- Metric type `Gauge`. -/
def Gauge : Int := 1

/-- Operation `Set = iota`. -/
def Set : Int := 0
/-- Operation `Add`. -/
def Add : Int := 1
/-- Operation `Sub`. -/
def Sub : Int := 2
/-- Operation `Increment`. -/
def Increment : Int := 3
/-- Operation `Decrement`. -/
def Decrement : Int := 4

/-- The struct `Metric`; the getter returns a `float64`, the `i`-th call giving `g i`. -/
structure Metric where
  Name : String
  Desc : String
  MetricType : Int
  OperationType : Int
  UpdateInterval : Int
  Getter : Option (Nat → float64)

/-- The struct `GaugeJob`. -/
structure GaugeJob where
  Job : prometheus.Gauge

/-- The struct `CounterJob`. -/
structure CounterJob where
  Job : prometheus.Counter

/-- Method `(*GaugeJob).Increment`: `job.Job.Inc()`. -/
def GaugeJob.Increment (job : GaugeJob) : Exec GaugeJob Unit := .ret () ⟨job.Job.Inc⟩
/-- Method `(*GaugeJob).Decrement`: `job.Job.Dec()`. -/
def GaugeJob.Decrement (job : GaugeJob) : Exec GaugeJob Unit := .ret () ⟨job.Job.Dec⟩
/-- Method `(*GaugeJob).Set`: `job.Job.Set(val)`. -/
def GaugeJob.Set (job : GaugeJob) (val : float64) : Exec GaugeJob Unit :=
  .ret () ⟨job.Job.Set val⟩
/-- Method `(*GaugeJob).Add`: `job.Job.Add(val)`. -/
def GaugeJob.Add (job : GaugeJob) (val : float64) : Exec GaugeJob Unit :=
  .ret () ⟨job.Job.Add val⟩
/-- Method `(*GaugeJob).Subtract`: `job.Job.Sub(val)`. -/
def GaugeJob.Subtract (job : GaugeJob) (val : float64) : Exec GaugeJob Unit :=
  .ret () ⟨job.Job.Sub val⟩

/-- Method `(*CounterJob).Set`: `log.Fatal`. -/
def CounterJob.Set (job : CounterJob) (_val : float64) : Exec CounterJob Unit :=
  .fatal "no set function from Counter metric" job
/-- Method `(*CounterJob).Increment`: `job.Job.Inc()`. -/
def CounterJob.Increment (job : CounterJob) : Exec CounterJob Unit := .ret () ⟨job.Job.Inc⟩
/-- Method `(*CounterJob).Decrement`: `log.Fatal`. -/
def CounterJob.Decrement (job : CounterJob) : Exec CounterJob Unit :=
  .fatal "no dec function from Counter metrics" job
/-- Method `(*CounterJob).Add`: `job.Job.Add(val)`. -/
def CounterJob.Add (job : CounterJob) (val : float64) : Exec CounterJob Unit :=
  match job.Job.Add val with
  | .ret _ c => .ret () ⟨c⟩
  | .fatal msg c => .fatal msg ⟨c⟩
  | .crash msg c => .crash msg ⟨c⟩
/-- Method `(*CounterJob).Subtract`: `log.Fatal`. -/
def CounterJob.Subtract (job : CounterJob) (_val : float64) : Exec CounterJob Unit :=
  .fatal "no substitute function from Counter metrics" job

/-- A value of the interface type `job`: a `*GaugeJob`, a `*CounterJob`, or nil. -/
inductive job where
  | gauge (j : GaugeJob)
  | counter (j : CounterJob)
  | nil

/-- Lifts the outcome of a method of `*GaugeJob` to the interface value. -/
def job.ofGauge : Exec GaugeJob Unit → Exec job Unit
  | .ret a j => .ret a (.gauge j)
  | .fatal msg j => .fatal msg (.gauge j)
  | .crash msg j => .crash msg (.gauge j)

/-- Lifts the outcome of a method of `*CounterJob` to the interface value. -/
def job.ofCounter : Exec CounterJob Unit → Exec job Unit
  | .ret a j => .ret a (.counter j)
  | .fatal msg j => .fatal msg (.counter j)
  | .crash msg j => .crash msg (.counter j)

/-- The run-time panic of a method call on the nil interface value. -/
def nilDereference : Exec job Unit :=
  .crash "invalid memory address or nil pointer dereference" job.nil

/-- Interface method `job.Set`, dispatched on the dynamic type. -/
def job.Set : job → float64 → Exec job Unit
  | .gauge j, val => job.ofGauge (j.Set val)
  | .counter j, val => job.ofCounter (j.Set val)
  | .nil, _ => nilDereference
/-- Interface method `job.Increment`. -/
def job.Increment : job → Exec job Unit
  | .gauge j => job.ofGauge j.Increment
  | .counter j => job.ofCounter j.Increment
  | .nil => nilDereference
/-- Interface method `job.Decrement`. -/
def job.Decrement : job → Exec job Unit
  | .gauge j => job.ofGauge j.Decrement
  | .counter j => job.ofCounter j.Decrement
  | .nil => nilDereference
/-- Interface method `job.Add`. -/
def job.Add : job → float64 → Exec job Unit
  | .gauge j, val => job.ofGauge (j.Add val)
  | .counter j, val => job.ofCounter (j.Add val)
  | .nil, _ => nilDereference
/-- Interface method `job.Subtract`. -/
def job.Subtract : job → float64 → Exec job Unit
  | .gauge j, val => job.ofGauge (j.Subtract val)
  | .counter j, val => job.ofCounter (j.Subtract val)
  | .nil, _ => nilDereference

/-- The number a handle shows: the gauge's `float64`, the counter's `get()`; `none` for
nil. -/
def job.value : job → Option float64
  | .gauge j => some j.Job.valBits
  | .counter j => some j.Job.get
  | .nil => none

/-- The type `http.Handler`: serving requests is outside this development, so a handler is
a token. -/
inductive Handler where
  | handler

/-- The struct `PrometheusClient`. -/
structure PrometheusClient where
  Handler : Handler
  Metrics : List Metric

/-- A goroutine started by `go client.runJob(...)`, with the arguments it was given. -/
structure Task where
  job : job
  interval : Int
  operationType : Int
  getter : Option (Nat → float64)

/-- The process-wide state: the names the default registry of the library holds, whoever
registered them (the library registers collectors of its own), and the goroutines started
so far, both in order of creation. -/
structure Process where
  registry : List String
  goroutines : List Task

/-- Method `SetMetrics` (its logging is left out). -/
def PrometheusClient.SetMetrics (client : PrometheusClient) (metrics : List Metric) :
    PrometheusClient :=
  { client with Metrics := metrics }

/-- Method `newJob`: a `switch` on the metric type with no default case, then `return nil`.
A panic of `promauto` ends the process. -/
def PrometheusClient.newJob (_client : PrometheusClient) (t : Int) (name desc : String)
    (p : Process) : Exec Process job :=
  if t = Gauge then
    match prometheus.promauto.NewGauge name desc p.registry with
    | .ret g r => .ret (job.gauge ⟨g⟩) { p with registry := r }
    | .fatal msg r => .fatal msg { p with registry := r }
    | .crash msg r => .crash msg { p with registry := r }
  else if t = Counter then
    match prometheus.promauto.NewCounter name desc p.registry with
    | .ret c r => .ret (job.counter ⟨c⟩) { p with registry := r }
    | .fatal msg r => .fatal msg { p with registry := r }
    | .crash msg r => .crash msg { p with registry := r }
  else .ret job.nil p

/-- Method `getOperation`: the closure for the operation, or `log.Fatal` in the default
case.  The closure captures `prometheusJob`; it is a function of `Unit` here. -/
def PrometheusClient.getOperation (_client : PrometheusClient) (operationType : Int)
    (prometheusJob : job) (value : float64) : Exec job (Unit → Exec job Unit) :=
  if operationType = Set then .ret (fun _ => prometheusJob.Set value) prometheusJob
  else if operationType = Increment then .ret (fun _ => prometheusJob.Increment) prometheusJob
  else if operationType = Decrement then .ret (fun _ => prometheusJob.Decrement) prometheusJob
  else if operationType = Add then .ret (fun _ => prometheusJob.Add value) prometheusJob
  else if operationType = Sub then .ret (fun _ => prometheusJob.Subtract value) prometheusJob
  else .fatal "unknown operation type" prometheusJob

/-- The variable `value` of `runJob`: `float64(0)`, replaced by `getter()` when the getter
is not nil.  `i` counts the calls of the getter made so far. -/
def tickValue (getter : Option (Nat → float64)) (i : Nat) : float64 :=
  match getter with
  | none => float64.zero
  | some g => g i

/-- The body of the loop of `runJob`, run once per firing of the ticker: compute `value`,
then get the operation and run it directly. -/
def PrometheusClient.tick (client : PrometheusClient) (job : monitoring.job)
    (operationType : Int) (getter : Option (Nat → float64)) (i : Nat) :
    Exec monitoring.job Unit :=
  let value : float64 := tickValue getter i
  match client.getOperation operationType job value with
  | .ret operation _ => operation ()
  | .fatal msg s => .fatal msg s
  | .crash msg s => .crash msg s

/-- The loop of `runJob`, observed after the ticker has fired `n` times: `ret` means the
goroutine is alive and waits for the next firing.  Once a tick has ended the process no
later tick runs. -/
def PrometheusClient.runLoop (client : PrometheusClient) (job : monitoring.job)
    (operationType : Int) (getter : Option (Nat → float64)) : Nat → Exec monitoring.job Unit
  | 0 => .ret () job
  | n + 1 =>
    match client.runLoop job operationType getter n with
    | .ret _ j => client.tick j operationType getter n
    | .fatal msg s => .fatal msg s
    | .crash msg s => .crash msg s

/-- Method `runJob`, observed after the ticker has fired `n` times.  Its first statement is
`time.NewTicker(interval)`, which panics when the interval is not positive, before any
firing. -/
def PrometheusClient.runJob (client : PrometheusClient) (job : monitoring.job)
    (interval : Int) (operationType : Int) (getter : Option (Nat → float64)) (n : Nat) :
    Exec monitoring.job Unit :=
  if interval ≤ 0 then .crash "non-positive interval for NewTicker" job
  else client.runLoop job operationType getter n

/-- The loop of `Init` over the metrics still to be handled: make the job, start the
goroutine.  A panic in `newJob` ends the process where it stands. -/
def PrometheusClient.initLoop (client : PrometheusClient) :
    List Metric → Process → Exec Process Unit
  | [], p => .ret () p
  | metric :: rest, p =>
    match client.newJob metric.MetricType metric.Name metric.Desc p with
    | .ret prometheusJob p1 =>
      client.initLoop rest { p1 with goroutines := p1.goroutines ++
        [⟨prometheusJob, metric.UpdateInterval, metric.OperationType, metric.Getter⟩] }
    | .fatal msg s => .fatal msg s
    | .crash msg s => .crash msg s

/-- Method `Init`: `for _, metric := range client.Metrics`. -/
def PrometheusClient.Init (client : PrometheusClient) (p : Process) : Exec Process Unit :=
  client.initLoop client.Metrics p

end monitoring

end Go

/-! ## Lemmas on one tick -/

namespace monitoring

/-- One tick of a counter handle, spelled out for every operation tag. -/
theorem tick_counter (client : PrometheusClient) (c : prometheus.Counter) (op : Int)
    (getter : Option (Nat → Float64)) (i : Nat) :
    client.tick (job.counter ⟨c⟩) op getter i =
      if op = Set then .fatal "no set function from Counter metric" (job.counter ⟨c⟩)
      else if op = Increment then .ret () (job.counter ⟨{ c with val := c.val + 1 }⟩)
      else if op = Decrement then .fatal "no dec function from Counter metrics" (job.counter ⟨c⟩)
      else if op = Add then
        (if tickValue getter i < 0 then
          .crash "counter cannot decrease in value" (job.counter ⟨c⟩)
        else .ret () (job.counter ⟨{ c with val := c.val + tickValue getter i }⟩))
      else if op = Sub then
        .fatal "no substitute function from Counter metrics" (job.counter ⟨c⟩)
      else .fatal "unknown operation type" (job.counter ⟨c⟩) := by
  unfold PrometheusClient.tick PrometheusClient.getOperation
  split_ifs <;>
    simp [*, job.Set, job.Add, job.Subtract, job.Increment, job.Decrement, CounterJob.Set,
      CounterJob.Add, CounterJob.Subtract, CounterJob.Increment, CounterJob.Decrement,
      job.ofCounter, prometheus.Counter.Add, prometheus.Counter.Inc]

/-- Once a run has ended the process, it stays ended at every later observation. -/
theorem runJob_fatal_succ (client : PrometheusClient) (j s : job) (interval op : Int)
    (getter : Option (Nat → Float64)) (n : Nat) (msg : String)
    (h : client.runJob j interval op getter n = .fatal msg s) :
    client.runJob j interval op getter (n + 1) = .fatal msg s := by
  simp [PrometheusClient.runJob, h]

/-! ## The loop of `Init` -/

/-- The method `newJob` returns the handle of the descriptor and registers what it wraps. -/
theorem newJob_eq (client : PrometheusClient) (m : Metric) (p : Process) :
    client.newJob m.MetricType m.Name m.Desc p
      = .ret m.handle ⟨p.registry ++ m.handle.registered, p.goroutines⟩ := by
  unfold PrometheusClient.newJob Metric.handle
  split_ifs <;>
    simp [job.registered, prometheus.promauto.NewGauge, prometheus.promauto.NewCounter]

/-- The loop of `Init` always returns: it registers the handles and starts the goroutines
of the descriptors, in list order. -/
theorem initLoop_eq (client : PrometheusClient) (metrics : List Metric) (p : Process) :
    client.initLoop metrics p
      = .ret () ⟨p.registry ++ (metrics.map fun m => m.handle.registered).flatten,
          p.goroutines ++ metrics.map Metric.task⟩ := by
  induction metrics generalizing p with
  | nil => simp [PrometheusClient.initLoop]
  | cons m rest ih =>
    simp [PrometheusClient.initLoop, newJob_eq, ih, Metric.task]

/-! ## The claims of Part I -/

/-- C1: for a descriptor of kind Counter with operation Set, Decrement or Sub, `Init`
returns and starts the task on a fresh counter handle, and then the first tick is fatal:
every tick of a counter handle under such an operation ends in `log.Fatal`, for every
producer and every value it returns, with the counter exactly as it was; so the run is
ended from the first firing on, and the counter still reads what it read at the start. -/
theorem counter_unsupported_operation_is_fatal (client : PrometheusClient) (m : Metric)
    (hk : m.MetricType = Counter)
    (hop : m.OperationType = Set ∨ m.OperationType = Decrement ∨ m.OperationType = Sub)
    (p : Process) :
    (client.SetMetrics [m]).Init p
      = .ret () ⟨p.registry ++ [prometheus.Collector.counter (prometheus.NewCounter m.Name m.Desc)],
          p.goroutines ++ [⟨job.counter ⟨prometheus.NewCounter m.Name m.Desc⟩,
            m.UpdateInterval, m.OperationType, m.Getter⟩]⟩ ∧
    (∀ (c : prometheus.Counter) (getter : Option (Nat → Float64)) (i : Nat),
      ∃ msg, client.tick (job.counter ⟨c⟩) m.OperationType getter i
        = .fatal msg (job.counter ⟨c⟩)) ∧
    (∀ (c : prometheus.Counter) (getter : Option (Nat → Float64)) (n : Nat),
      ∃ msg, client.runJob (job.counter ⟨c⟩) m.UpdateInterval m.OperationType getter (n + 1)
        = .fatal msg (job.counter ⟨c⟩)) := by
  have htick : ∀ (c : prometheus.Counter) (getter : Option (Nat → Float64)) (i : Nat),
      ∃ msg, client.tick (job.counter ⟨c⟩) m.OperationType getter i
        = .fatal msg (job.counter ⟨c⟩) := by
    intro c getter i
    rw [tick_counter]
    rcases hop with h | h | h <;> rw [h] <;>
      simp [monitoring.Set, Decrement, monitoring.Sub, Increment, monitoring.Add]
  refine ⟨?_, htick, ?_⟩
  · simp [PrometheusClient.Init, PrometheusClient.SetMetrics, initLoop_eq, Metric.task,
      Metric.handle, hk, Counter, Gauge, job.registered]
  · intro c getter n
    induction n with
    | zero =>
      obtain ⟨msg, h⟩ := htick c getter 0
      exact ⟨msg, by simp [PrometheusClient.runJob, h]⟩
    | succ n ih =>
      obtain ⟨msg, h⟩ := ih
      exact ⟨msg, runJob_fatal_succ client _ _ _ _ _ _ _ h⟩

/-- Witness of C1: the descriptor of a counter with operation Set, in a fresh process. -/
theorem counter_unsupported_operation_is_fatal_witness :
    (newPrometheus.SetMetrics [⟨"c", "d", Counter, monitoring.Set, 1, none⟩]).Init Process.fresh
      = .ret () ⟨[] ++ [prometheus.Collector.counter (prometheus.NewCounter "c" "d")],
          [] ++ [⟨job.counter ⟨prometheus.NewCounter "c" "d"⟩, 1, monitoring.Set, none⟩]⟩ ∧
    ∃ msg, newPrometheus.tick (job.counter ⟨prometheus.NewCounter "c" "d"⟩) monitoring.Set
        (some fun _ => 7) 0
      = .fatal msg (job.counter ⟨prometheus.NewCounter "c" "d"⟩) :=
  have h := counter_unsupported_operation_is_fatal newPrometheus
    ⟨"c", "d", Counter, monitoring.Set, 1, none⟩ rfl (Or.inl rfl) Process.fresh
  ⟨h.1, h.2.1 (prometheus.NewCounter "c" "d") (some fun _ => 7) 0⟩

/-- C3: a tick of a counter handle (what `newJob` makes for kind Counter) under operation
Increment returns normally and raises the counter by exactly 1, for every producer (present or absent) and every value it
returns; hence after `n` firings the counter has risen by `n`. -/
theorem counter_increment_adds_one (client : PrometheusClient) (c : prometheus.Counter)
    (getter : Option (Nat → Float64)) :
    (∀ i : Nat, client.tick (job.counter ⟨c⟩) Increment getter i
      = .ret () (job.counter ⟨{ c with val := c.val + 1 }⟩)) ∧
    (∀ (interval : Int) (n : Nat), client.runJob (job.counter ⟨c⟩) interval Increment getter n
      = .ret () (job.counter ⟨{ c with val := c.val + n }⟩)) := by
  have htick : ∀ (c : prometheus.Counter) (i : Nat),
      client.tick (job.counter ⟨c⟩) Increment getter i
        = .ret () (job.counter ⟨{ c with val := c.val + 1 }⟩) := by
    intro c i
    rw [tick_counter]
    simp [monitoring.Set, Increment]
  refine ⟨htick c, ?_⟩
  intro interval n
  induction n with
  | zero => simp [PrometheusClient.runJob]
  | succ n ih =>
    simp only [PrometheusClient.runJob, ih, htick]
    simp [add_assoc]

/-- C6: `New` returns the Prometheus client, leaving the process as it was, for
`app = Prometheus`; for every other value of `app` it ends in `log.Fatal` and returns no
client, with the process state untouched: nothing has been registered or started by it. -/
theorem New_fatal_unless_Prometheus (app : Int) (p : Process) :
    New Prometheus p = .ret newPrometheus p ∧
    (app ≠ Prometheus → New app p = .fatal "unknown metric instrument" p) := by
  constructor
  · simp [New]
  · intro h
    simp [New, h]

/-- Witness of C6: backend kind 1 in a fresh process. -/
theorem New_fatal_unless_Prometheus_witness :
    New 1 Process.fresh = .fatal "unknown metric instrument" Process.fresh :=
  (New_fatal_unless_Prometheus 1 Process.fresh).2 (by decide)

/-- C9: the descriptor `counter_metric_test_add_by_2` of the example program is a counter
with operation Add whose getter returns 3: each tick raises the counter by 3, not by the 2
its name and description announce; from a fresh counter the first tick leaves 3. -/
theorem example_add_by_2_adds_three (getAverage : Nat → Float64) :
    ∃ m : Metric, (main.metrics getAverage)[2]? = some m ∧
      m.Name = "counter_metric_test_add_by_2" ∧
      m.Desc = "this metric will always be incremented by 2 every 10 second" ∧
      m.MetricType = Counter ∧ m.OperationType = Add ∧
      (∀ (client : PrometheusClient) (c : prometheus.Counter) (i : Nat),
        client.tick (job.counter ⟨c⟩) m.OperationType m.Getter i
          = .ret () (job.counter ⟨{ c with val := c.val + 3 }⟩) ∧
        client.tick (job.counter ⟨c⟩) m.OperationType m.Getter i
          ≠ .ret () (job.counter ⟨{ c with val := c.val + 2 }⟩)) ∧
      (∀ client : PrometheusClient,
        client.runJob m.handle m.UpdateInterval m.OperationType m.Getter 1
          = .ret () (job.counter ⟨⟨m.Name, m.Desc, 3⟩⟩)) := by
  refine ⟨⟨"counter_metric_test_add_by_2",
    "this metric will always be incremented by 2 every 10 second", Counter, Add,
    1000000000 * 10, some (fun _ => 3)⟩, rfl, rfl, rfl, rfl, rfl, ?_, ?_⟩
  · intro client c i
    dsimp only
    have h : client.tick (job.counter ⟨c⟩) Add (some fun _ => 3) i
        = .ret () (job.counter ⟨{ c with val := c.val + 3 }⟩) := by
      rw [tick_counter]
      norm_num [monitoring.Set, monitoring.Add, Increment, Decrement, tickValue]
    refine ⟨h, ?_⟩
    rw [h]
    simp
  · intro client
    simp only [PrometheusClient.runJob, Metric.handle]
    norm_num [tick_counter, monitoring.Set, monitoring.Add, Increment, Decrement, tickValue,
      prometheus.NewCounter, Gauge, Counter]

end monitoring

/-! # Part II: lemmas on `float64` -/

namespace Go

namespace float64

/-- The number of binary digits, through the binary logarithm. -/
theorem bitLenAux_eq (fuel n : Nat) (h : n ≤ fuel) :
    bitLenAux fuel n = if n = 0 then 0 else Nat.log2 n + 1 := by
  induction fuel generalizing n with
  | zero =>
    have : n = 0 := by omega
    simp [bitLenAux, this]
  | succ fuel ih =>
    by_cases hn : n = 0
    · simp [bitLenAux, hn]
    · have h2 : n / 2 ≤ fuel := by omega
      rw [bitLenAux, if_neg hn, if_neg hn, ih _ h2]
      by_cases h1 : 2 ≤ n
      · have : n / 2 ≠ 0 := by omega
        rw [if_neg this]
        conv_rhs => rw [Nat.log2]
        simp [h1]
      · have h0 : n / 2 = 0 := by omega
        rw [if_pos h0]
        conv_rhs => rw [Nat.log2]
        simp [h1]

/-- A number from `2^L` up to `2^(L+1)` has `L + 1` binary digits. -/
theorem bitLen_eq (n L : Nat) (h1 : 2 ^ L ≤ n) (h2 : n < 2 ^ (L + 1)) : bitLen n = L + 1 := by
  have hn : n ≠ 0 := by
    have := Nat.two_pow_pos L
    omega
  rw [bitLen, bitLenAux_eq n n le_rfl, if_neg hn]
  have a : L ≤ n.log2 := (Nat.le_log2 hn).2 h1
  have b : n.log2 < L + 1 := (Nat.log2_lt hn).2 h2
  omega

/-- A number below `2^L` has at most `L` binary digits. -/
theorem bitLen_le (n L : Nat) (h : n < 2 ^ L) : bitLen n ≤ L := by
  rw [bitLen, bitLenAux_eq n n le_rfl]
  split_ifs with hn
  · omega
  · have b : n.log2 < L := (Nat.log2_lt hn).2 h
    omega

/-- A number other than 0 lies between the powers of two its digit count gives. -/
theorem bitLen_spec (n : Nat) (hn : n ≠ 0) :
    1 ≤ bitLen n ∧ 2 ^ (bitLen n - 1) ≤ n ∧ n < 2 ^ bitLen n := by
  rw [bitLen, bitLenAux_eq n n le_rfl, if_neg hn]
  exact ⟨by omega, by simpa using Nat.log2_self_le hn, Nat.lt_log2_self⟩

/-- Appending `k` zero bits adds `k` to the digit count. -/
theorem bitLen_mul_pow (n k : Nat) (hn : n ≠ 0) : bitLen (n * 2 ^ k) = bitLen n + k := by
  obtain ⟨h0, h1, h2⟩ := bitLen_spec n hn
  have key := bitLen_eq (n * 2 ^ k) (bitLen n - 1 + k)
    (by rw [Nat.pow_add]; exact Nat.mul_le_mul_right _ h1)
    (by
      have : 2 ^ (bitLen n - 1 + k + 1) = 2 ^ bitLen n * 2 ^ k := by
        rw [← Nat.pow_add]; congr 1; omega
      rw [this]
      exact Nat.mul_lt_mul_of_pos_right h2 (Nat.two_pow_pos k))
  omega

/-- Dropping `k` zero bits needs no rounding. -/
theorem rne_mul_pow (m k : Nat) : rne (m * 2 ^ k) k = m := by
  have hp : 0 < 2 ^ k := Nat.two_pow_pos k
  have h1 : m * 2 ^ k % 2 ^ k = 0 := Nat.mul_mod_left _ _
  have h2 : m * 2 ^ k / 2 ^ k = m := Nat.mul_div_cancel _ hp
  have h3 : 0 < 2 ^ (k - 1) := Nat.two_pow_pos _
  unfold rne
  rw [h1, h2, if_neg]
  omega

/-- Rounding the exact magnitude of a finite number, written with `k` more zero bits at
the low end, gives the number back. -/
theorem round_mant (s : Bool) (e : Fin 2047) (f : Fin 4503599627370496) (k : Nat)
    (hm : mant e f ≠ 0) (hk : k ≤ scale e + 1075) :
    round s (mant e.val f.val * 2 ^ k) (scale e.val + 1075 - k) = fin s e f := by
  obtain ⟨e, he⟩ := e
  obtain ⟨f, hf⟩ := f
  simp only at hm hk ⊢
  have hn : mant e f * 2 ^ k ≠ 0 := Nat.mul_ne_zero hm (Nat.two_pow_pos k).ne'
  unfold round
  rw [if_neg hn, bitLen_mul_pow _ _ hm]
  by_cases h0 : e = 0
  · subst h0
    have hM : mant 0 f = f := by simp [mant]
    have hQ : scale 0 = 1 := by simp [scale]
    rw [hQ] at hk
    simp only [hM, hQ]
    have hb : bitLen f ≤ 52 := bitLen_le _ 52 (by simpa using hf)
    have hT : max (1 + 1075 - k + (bitLen f + k) - 53) 1076 = 1076 := by omega
    simp only [hT]
    have hmm : (if 1076 ≤ 1 + 1075 - k then f * 2 ^ k * 2 ^ (1 + 1075 - k - 1076)
        else rne (f * 2 ^ k) (1076 - (1 + 1075 - k))) = f := by
      by_cases hk0 : k = 0
      · subst hk0; simp
      · rw [if_neg (by omega)]
        have : 1076 - (1 + 1075 - k) = k := by omega
        rw [this]
        exact rne_mul_pow _ _
    rw [hmm, if_pos hf]
    simp [pack, hf]
  · have hM : mant e f = 4503599627370496 + f := by simp [mant, h0]
    have hQ : scale e = e := by simp [scale, h0]
    rw [hQ] at hk
    simp only [hM, hQ]
    have hb : bitLen (4503599627370496 + f) = 53 :=
      bitLen_eq _ 52 (by norm_num) (by norm_num; omega)
    rw [hb]
    have hT : max (e + 1075 - k + (53 + k) - 53) 1076 = e + 1075 := by omega
    simp only [hT]
    have hmm : (if e + 1075 ≤ e + 1075 - k then
          (4503599627370496 + f) * 2 ^ k * 2 ^ (e + 1075 - k - (e + 1075))
        else rne ((4503599627370496 + f) * 2 ^ k) (e + 1075 - (e + 1075 - k)))
        = 4503599627370496 + f := by
      by_cases hk0 : k = 0
      · subst hk0; simp
      · rw [if_neg (by omega)]
        have : e + 1075 - (e + 1075 - k) = k := by omega
        rw [this]
        exact rne_mul_pow _ _
    rw [hmm, if_neg (by omega), if_pos (by omega)]
    have h1 : e + 1075 - 1075 = e := by omega
    have h2 : 4503599627370496 + f - 4503599627370496 = f := by omega
    simp [pack, h1, h2, he, hf]

/-- A finite number whose significand is 0 is a zero. -/
theorem mant_eq_zero (e : Fin 2047) (f : Fin 4503599627370496) (h : mant e f = 0) :
    e = 0 ∧ f = 0 := by
  obtain ⟨e, he⟩ := e
  obtain ⟨f, hf⟩ := f
  simp only [mant] at h
  split_ifs at h with h0
  · subst h0; subst h
    exact ⟨rfl, rfl⟩
  · omega

/-- Multiplying by `-1` flips the sign: `x * -1` is `-x`. -/
theorem mul_negOne (x : float64) : x.mul negOne = x.neg := by
  cases x with
  | nan => rfl
  | inf a => cases a <;> rfl
  | fin s e f =>
    have hs : xor s true = !s := by cases s <;> rfl
    have h1 : mant ((1023 : Fin 2047) : Nat) ((0 : Fin 4503599627370496) : Nat)
        = 4503599627370496 := by decide
    have h2 : scale ((1023 : Fin 2047) : Nat) = 1023 := by decide
    show round (xor s true) (mant e f * mant ((1023 : Fin 2047) : Nat)
      ((0 : Fin 4503599627370496) : Nat)) (scale e + scale ((1023 : Fin 2047) : Nat)) = fin (!s) e f
    rw [h1, h2, hs]
    by_cases hm : mant e f = 0
    · obtain ⟨he, hf⟩ := mant_eq_zero e f hm
      subst he; subst hf
      cases s <;> decide
    · have := round_mant (!s) e f 52 hm (by omega)
      have h3 : scale e.val + 1075 - 52 = scale e.val + 1023 := by omega
      rw [h3] at this
      exact this

/-- Adding `+0` on the left changes nothing, except that `+0 + -0` is `+0`. -/
theorem zero_add (x : float64) (hx : x ≠ fin true 0 0) : zero.add x = x := by
  cases x with
  | nan => rfl
  | inf a => rfl
  | fin s e f =>
    have hq : min (scale ((0 : Fin 2047) : Nat)) (scale e) = 1 := by
      have : scale ((0 : Fin 2047) : Nat) = 1 := by decide
      rw [this]
      have : 1 ≤ scale e := by
        unfold scale
        split_ifs <;> omega
      omega
    have ha : mant ((0 : Fin 2047) : Nat) ((0 : Fin 4503599627370496) : Nat) = 0 := by decide
    show (let q := min (scale ((0 : Fin 2047) : Nat)) (scale e)
      let a := mant ((0 : Fin 2047) : Nat) ((0 : Fin 4503599627370496) : Nat)
        * 2 ^ (scale ((0 : Fin 2047) : Nat) - q)
      let b := mant e f * 2 ^ (scale e - q)
      if false = s then round false (a + b) (q + 1075)
      else if a = b then pack false 0 0
      else if b < a then round false (a - b) (q + 1075)
      else round s (b - a) (q + 1075)) = fin s e f
    simp only [hq, ha, Nat.zero_mul, Nat.zero_add, Nat.sub_zero, Nat.not_lt_zero, if_false]
    have hk : scale e.val - 1 ≤ scale e.val + 1075 := by omega
    have hE : scale e.val + 1075 - (scale e.val - 1) = 1 + 1075 := by
      have : 1 ≤ scale e.val := by
        unfold scale
        split_ifs <;> omega
      omega
    by_cases hm : mant e f = 0
    · obtain ⟨he, hf⟩ := mant_eq_zero e f hm
      subst he; subst hf
      cases s
      · decide
      · exact absurd rfl hx
    · have hr := round_mant s e f (scale e.val - 1) hm hk
      rw [hE] at hr
      have hb : mant e.val f.val * 2 ^ (scale e.val - 1) ≠ 0 :=
        Nat.mul_ne_zero hm (Nat.two_pow_pos _).ne'
      cases s
      · simpa using hr
      · simp only [Bool.false_eq_true, if_false]
        rw [if_neg (fun h => hb h.symm)]
        exact hr

/-- The conversion of a `uint64` is a finite number of sign `+` or the infinity `+∞`; it
is never NaN and never negative. -/
theorem round_false (n E : Nat) :
    (∃ e f, round false n E = fin false e f) ∨ round false n E = inf false := by
  have hp : ∀ a b, (∃ e f, pack false a b = fin false e f) ∨ pack false a b = inf false := by
    intro a b
    unfold pack
    split_ifs with h
    · exact Or.inl ⟨_, _, rfl⟩
    · exact Or.inr rfl
  unfold round
  dsimp only
  split_ifs <;> exact hp _ _

/-- The conversion `float64(n)` is not below zero, equals itself, and is not `-0`. -/
theorem ofUInt64_props (n : Nat) :
    (ofUInt64 n).lt zero = false ∧ (ofUInt64 n).eq (ofUInt64 n) = true ∧
      ofUInt64 n ≠ fin true 0 0 := by
  unfold ofUInt64
  rcases round_false n 2150 with ⟨e, f, h⟩ | h <;> rw [h]
  · refine ⟨?_, ?_, by simp⟩
    · simp [lt, isNaN, zero, key]
      omega
    · simp [eq, isNaN]
  · refine ⟨?_, ?_, by simp⟩
    · simp [lt, isNaN, zero, key]
    · simp [eq, isNaN]

/-- The fields of `float64(k)` for a whole number `k` from 1 up to 2^53: no rounding
takes place. -/
theorem ofUInt64_fields (k : Nat) (h0 : k ≠ 0) (hk : k < 9007199254740992) :
    ∃ (e : Fin 2047) (f : Fin 4503599627370496), ofUInt64 k = fin false e f ∧
      e.val = 1022 + bitLen k ∧ mant e.val f.val = k * 2 ^ (53 - bitLen k) ∧
      bitLen k ≤ 53 := by
  obtain ⟨hL1, hlo, hhi⟩ := bitLen_spec k h0
  have hL : bitLen k ≤ 53 := bitLen_le k 53 (by simpa using hk)
  set L := bitLen k with hLdef
  have hT : max (2150 + L - 53) 1076 = 2097 + L := by omega
  have hm1 : 4503599627370496 ≤ k * 2 ^ (53 - L) := by
    have : (4503599627370496 : Nat) = 2 ^ (L - 1) * 2 ^ (53 - L) := by
      rw [← Nat.pow_add]
      have : L - 1 + (53 - L) = 52 := by omega
      rw [this]
    rw [this]
    exact Nat.mul_le_mul_right _ hlo
  have hm2 : k * 2 ^ (53 - L) < 9007199254740992 := by
    have : (9007199254740992 : Nat) = 2 ^ L * 2 ^ (53 - L) := by
      rw [← Nat.pow_add]
      have : L + (53 - L) = 53 := by omega
      rw [this]
    rw [this]
    exact Nat.mul_lt_mul_of_pos_right hhi (Nat.two_pow_pos _)
  have hr : ofUInt64 k = pack false (1022 + L) (k * 2 ^ (53 - L) - 4503599627370496) := by
    unfold ofUInt64 round
    rw [if_neg h0, ← hLdef]
    simp only [hT]
    have h1 : 2097 + L ≤ 2150 := by omega
    have h2 : 2150 - (2097 + L) = 53 - L := by omega
    have h3 : 2097 + L - 1075 = 1022 + L := by omega
    rw [if_pos h1, h2, if_neg (by omega), if_pos hm2, h3]
  have hp : pack false (1022 + L) (k * 2 ^ (53 - L) - 4503599627370496)
      = fin false ⟨1022 + L, by omega⟩ ⟨k * 2 ^ (53 - L) - 4503599627370496, by omega⟩ := by
    unfold pack
    rw [dif_pos ⟨by omega, by omega⟩]
  refine ⟨⟨1022 + L, by omega⟩, ⟨k * 2 ^ (53 - L) - 4503599627370496, by omega⟩,
    hr.trans hp, rfl, ?_, hL⟩
  show mant (1022 + L) (k * 2 ^ (53 - L) - 4503599627370496) = k * 2 ^ (53 - L)
  unfold mant
  rw [if_neg (by omega)]
  omega

/-- The conversion of 0 is `+0`. -/
theorem ofUInt64_zero : ofUInt64 0 = zero := by decide

/-- A whole number below 2^53 is converted to `float64` and back without change. -/
theorem toUInt64_ofUInt64 (k : Nat) (hk : k < 9007199254740992) :
    toUInt64 (ofUInt64 k) = k := by
  by_cases h0 : k = 0
  · subst h0
    have h : ofUInt64 0 = fin false 0 0 := by decide
    rw [h]
    have hm : mant ((0 : Fin 2047) : Nat) ((0 : Fin 4503599627370496) : Nat) = 0 := by decide
    have hs : scale ((0 : Fin 2047) : Nat) = 1 := by decide
    unfold toUInt64
    simp only [hm, hs, Nat.zero_mul, Nat.zero_div, ite_self]
    decide
  · obtain ⟨e, f, hr, he, hm, hL⟩ := ofUInt64_fields k h0 hk
    rw [hr]
    have hsc : scale e.val = 1022 + bitLen k := by
      unfold scale
      rw [if_neg (by omega), he]
    show (let t := if 1075 ≤ scale e.val then mant e.val f.val * 2 ^ (scale e.val - 1075)
        else mant e.val f.val / 2 ^ (1075 - scale e.val)
      if false = true then
        (if t ≤ 9223372036854775808 then (18446744073709551616 - t) % 18446744073709551616
          else 9223372036854775808)
      else if t < 18446744073709551616 then t else 9223372036854775808) = k
    rw [hsc, hm]
    have ht : (if 1075 ≤ 1022 + bitLen k then
          k * 2 ^ (53 - bitLen k) * 2 ^ (1022 + bitLen k - 1075)
        else k * 2 ^ (53 - bitLen k) / 2 ^ (1075 - (1022 + bitLen k))) = k := by
      split_ifs with h
      · have hL53 : bitLen k = 53 := by omega
        simp [hL53]
      · have : 1075 - (1022 + bitLen k) = 53 - bitLen k := by omega
        rw [this]
        exact Nat.mul_div_cancel _ (Nat.two_pow_pos _)
    simp only [ht]
    simp
    omega

/-- The product of two whole numbers is exact in `float64` as long as it stays below 2^53:
`float64(a) * float64(b)` is `float64(a * b)`. -/
theorem mul_ofUInt64 (a b : Nat) (ha : a < 9007199254740992) (hb : b < 9007199254740992)
    (hab : a * b < 9007199254740992) :
    (ofUInt64 a).mul (ofUInt64 b) = ofUInt64 (a * b) := by
  by_cases ha0 : a = 0
  · subst ha0
    rw [Nat.zero_mul, ofUInt64_zero]
    rcases round_false b 2150 with ⟨e, f, h⟩ | h
    · change ofUInt64 b = _ at h
      rw [h]
      show round (xor false false) (mant ((0 : Fin 2047) : Nat)
        ((0 : Fin 4503599627370496) : Nat) * mant e f) _ = zero
      have hm : mant ((0 : Fin 2047) : Nat) ((0 : Fin 4503599627370496) : Nat) = 0 := by
        decide
      rw [hm, Nat.zero_mul]
      rfl
    · exfalso
      by_cases hb0 : b = 0
      · subst hb0
        have : ofUInt64 0 = inf false := h
        rw [ofUInt64_zero] at this
        exact absurd this (by decide)
      · obtain ⟨e, f, hr, _⟩ := ofUInt64_fields b hb0 hb
        have : ofUInt64 b = inf false := h
        rw [hr] at this
        exact absurd this (by simp)
  · by_cases hb0 : b = 0
    · subst hb0
      rw [Nat.mul_zero, ofUInt64_zero]
      obtain ⟨e, f, hr, _⟩ := ofUInt64_fields a ha0 ha
      rw [hr]
      show round (xor false false) (mant e f * mant ((0 : Fin 2047) : Nat)
        ((0 : Fin 4503599627370496) : Nat)) _ = zero
      have hm : mant ((0 : Fin 2047) : Nat) ((0 : Fin 4503599627370496) : Nat) = 0 := by
        decide
      rw [hm, Nat.mul_zero]
      rfl
    · have hab0 : a * b ≠ 0 := Nat.mul_ne_zero ha0 hb0
      obtain ⟨ea, fa, hra, hea, hma, hLa⟩ := ofUInt64_fields a ha0 ha
      obtain ⟨eb, fb, hrb, heb, hmb, hLb⟩ := ofUInt64_fields b hb0 hb
      obtain ⟨ec, fc, hrc, hec, hmc, hLc⟩ := ofUInt64_fields (a * b) hab0 hab
      obtain ⟨ha1, halo, hahi⟩ := bitLen_spec a ha0
      obtain ⟨hb1, hblo, hbhi⟩ := bitLen_spec b hb0
      obtain ⟨hc1, hclo, hchi⟩ := bitLen_spec (a * b) hab0
      set La := bitLen a
      set Lb := bitLen b
      set Lc := bitLen (a * b)
      -- the digit counts: La + Lb ≤ Lc + 1
      have hsum : La + Lb ≤ Lc + 1 := by
        by_contra hcon
        have h1 : Lc ≤ La - 1 + (Lb - 1) := by omega
        have h2 : 2 ^ Lc ≤ 2 ^ (La - 1 + (Lb - 1)) := Nat.pow_le_pow_right (by decide) h1
        have h3 : 2 ^ (La - 1 + (Lb - 1)) ≤ a * b := by
          rw [Nat.pow_add]
          exact Nat.mul_le_mul halo hblo
        omega
      rw [hra, hrb, hrc]
      have hsa : scale ea.val = 1022 + La := by
        unfold scale
        rw [if_neg (by omega), hea]
      have hsb : scale eb.val = 1022 + Lb := by
        unfold scale
        rw [if_neg (by omega), heb]
      have hsc : scale ec.val = 1022 + Lc := by
        unfold scale
        rw [if_neg (by omega), hec]
      show round (xor false false) (mant ea fa * mant eb fb) (scale ea + scale eb)
        = fin false ec fc
      have hprod : mant ea.val fa.val * mant eb.val fb.val
          = mant ec.val fc.val * 2 ^ (53 + Lc - La - Lb) := by
        rw [hma, hmb, hmc]
        have hexp : 2 ^ (53 - La) * 2 ^ (53 - Lb) = 2 ^ (53 - Lc) * 2 ^ (53 + Lc - La - Lb) := by
          rw [← Nat.pow_add, ← Nat.pow_add]
          congr 1
          omega
        calc a * 2 ^ (53 - La) * (b * 2 ^ (53 - Lb))
            = a * b * (2 ^ (53 - La) * 2 ^ (53 - Lb)) := by ring
          _ = a * b * (2 ^ (53 - Lc) * 2 ^ (53 + Lc - La - Lb)) := by rw [hexp]
          _ = a * b * 2 ^ (53 - Lc) * 2 ^ (53 + Lc - La - Lb) := by ring
      have hmc0 : mant ec fc ≠ 0 := by
        rw [hmc]
        exact Nat.mul_ne_zero hab0 (Nat.two_pow_pos _).ne'
      have hr := round_mant false ec fc (53 + Lc - La - Lb) hmc0 (by omega)
      have hE : scale ec.val + 1075 - (53 + Lc - La - Lb) = scale ea.val + scale eb.val := by
        rw [hsa, hsb, hsc]
        omega
      rw [hE, ← hprod] at hr
      exact hr

end float64

end Go

/-! # Part II: lemmas on ticks and on `Init` -/

namespace Go

namespace float64

/-- Adding `+0` on the right changes nothing, except that `-0 + +0` is `+0`. -/
theorem add_zero (x : float64) (hx : x ≠ fin true 0 0) : x.add zero = x := by
  cases x with
  | nan => rfl
  | inf a => rfl
  | fin s e f =>
    have h1 : 1 ≤ scale e := by
      unfold scale
      split_ifs <;> omega
    have hq : min (scale e) (scale ((0 : Fin 2047) : Nat)) = 1 := by
      have : scale ((0 : Fin 2047) : Nat) = 1 := by decide
      rw [this]
      omega
    have ha : mant ((0 : Fin 2047) : Nat) ((0 : Fin 4503599627370496) : Nat) = 0 := by decide
    show (let q := min (scale e) (scale ((0 : Fin 2047) : Nat))
      let a := mant e f * 2 ^ (scale e - q)
      let b := mant ((0 : Fin 2047) : Nat) ((0 : Fin 4503599627370496) : Nat)
        * 2 ^ (scale ((0 : Fin 2047) : Nat) - q)
      if s = false then round s (a + b) (q + 1075)
      else if a = b then pack false 0 0
      else if b < a then round s (a - b) (q + 1075)
      else round false (b - a) (q + 1075)) = fin s e f
    simp only [hq, ha, Nat.zero_mul, Nat.add_zero, Nat.sub_zero]
    have hk : scale e.val - 1 ≤ scale e.val + 1075 := by omega
    have hE : scale e.val + 1075 - (scale e.val - 1) = 1 + 1075 := by omega
    by_cases hm : mant e f = 0
    · obtain ⟨he, hf⟩ := mant_eq_zero e f hm
      subst he; subst hf
      cases s
      · decide
      · exact absurd rfl hx
    · have hr := round_mant s e f (scale e.val - 1) hm hk
      rw [hE] at hr
      have hb : mant e.val f.val * 2 ^ (scale e.val - 1) ≠ 0 :=
        Nat.mul_ne_zero hm (Nat.two_pow_pos _).ne'
      cases s
      · simpa using hr
      · simp only [Bool.true_eq_false, if_false]
        rw [if_neg hb, if_pos (Nat.pos_of_ne_zero hb)]
        exact hr

end float64

namespace monitoring

/-! ## One tick -/

/-- A tick hands the value to the method of the handle that the operation tag selects. -/
theorem tick_eq (client : PrometheusClient) (j : job) (getter : Option (Nat → float64))
    (i : Nat) :
    client.tick j Set getter i = j.Set (tickValue getter i) ∧
    client.tick j Add getter i = j.Add (tickValue getter i) ∧
    client.tick j Sub getter i = j.Subtract (tickValue getter i) ∧
    client.tick j Increment getter i = j.Increment ∧
    client.tick j Decrement getter i = j.Decrement := by
  simp [PrometheusClient.tick, PrometheusClient.getOperation, Set, Add, Sub, Increment,
    Decrement]

/-- A run with a positive interval is the loop of ticks. -/
theorem runJob_pos (client : PrometheusClient) (j : job) (interval op : Int)
    (getter : Option (Nat → float64)) (n : Nat) (h : 0 < interval) :
    client.runJob j interval op getter n = client.runLoop j op getter n := by
  unfold PrometheusClient.runJob
  rw [if_neg (by omega)]

/-- One tick of a gauge handle returns, operation by operation, with the gauge changed by
the library call. -/
theorem tick_gauge (client : PrometheusClient) (g : prometheus.Gauge)
    (getter : Option (Nat → float64)) (i : Nat) :
    client.tick (job.gauge ⟨g⟩) Set getter i
      = .ret () (job.gauge ⟨{ g with valBits := tickValue getter i }⟩) ∧
    client.tick (job.gauge ⟨g⟩) Add getter i
      = .ret () (job.gauge ⟨{ g with valBits := g.valBits.add (tickValue getter i) }⟩) ∧
    client.tick (job.gauge ⟨g⟩) Sub getter i
      = .ret () (job.gauge ⟨{ g with valBits := g.valBits.sub (tickValue getter i) }⟩) ∧
    client.tick (job.gauge ⟨g⟩) Increment getter i
      = .ret () (job.gauge ⟨{ g with valBits := g.valBits.add float64.one }⟩) ∧
    client.tick (job.gauge ⟨g⟩) Decrement getter i
      = .ret () (job.gauge ⟨{ g with valBits := g.valBits.sub float64.one }⟩) := by
  obtain ⟨h1, h2, h3, h4, h5⟩ := tick_eq client (job.gauge ⟨g⟩) getter i
  rw [h1, h2, h3, h4, h5]
  have hneg : float64.negOne = float64.one.neg := by decide
  refine ⟨rfl, rfl, ?_, rfl, ?_⟩
  · simp [job.Subtract, GaugeJob.Subtract, job.ofGauge, prometheus.Gauge.Sub,
      prometheus.Gauge.Add, float64.mul_negOne, float64.sub]
  · simp [job.Decrement, GaugeJob.Decrement, job.ofGauge, prometheus.Gauge.Dec,
      prometheus.Gauge.Add, float64.sub, hneg]

/-- The loop of a gauge handle under one of the five operations is alive after any number
of firings, and the handle is still a gauge. -/
theorem runLoop_gauge_alive (client : PrometheusClient) (g : GaugeJob) (op : Int)
    (getter : Option (Nat → float64))
    (hop : op = Set ∨ op = Add ∨ op = Sub ∨ op = Increment ∨ op = Decrement) (n : Nat) :
    ∃ g' : GaugeJob, client.runLoop (job.gauge g) op getter n = .ret () (job.gauge g') := by
  induction n with
  | zero => exact ⟨g, rfl⟩
  | succ n ih =>
    obtain ⟨g', hg⟩ := ih
    obtain ⟨g0⟩ := g'
    have ht := tick_gauge client g0 getter n
    simp only [PrometheusClient.runLoop, hg]
    rcases hop with h | h | h | h | h <;> subst h
    · exact ⟨_, ht.1⟩
    · exact ⟨_, ht.2.1⟩
    · exact ⟨_, ht.2.2.1⟩
    · exact ⟨_, ht.2.2.2.1⟩
    · exact ⟨_, ht.2.2.2.2⟩

/-- A tick of a counter handle under Add with a whole number that `uint64` holds adds it to
the `uint64` accumulator, modulo 2^64. -/
theorem tick_counter_add_whole (client : PrometheusClient) (c : prometheus.Counter)
    (f : Nat → float64) (i k : Nat) (hf : f i = float64.ofUInt64 k)
    (hk : (float64.ofUInt64 k).toUInt64 = k) :
    client.tick (job.counter ⟨c⟩) Add (some f) i
      = .ret () (job.counter ⟨{ c with valInt := (c.valInt + k) % 18446744073709551616 }⟩) := by
  obtain ⟨h1, h2, _⟩ := float64.ofUInt64_props k
  rw [(tick_eq client _ _ i).2.1]
  simp [tickValue, hf, job.Add, CounterJob.Add, prometheus.Counter.Add, h1, hk, h2,
    job.ofCounter]

/-- A tick of a counter handle under Add with a value that is not below zero and is not a
whole number, stores the `float64` sum in the `float64` accumulator. -/
theorem tick_counter_add_float (client : PrometheusClient) (c : prometheus.Counter)
    (f : Nat → float64) (i : Nat) (h1 : (f i).lt float64.zero = false)
    (h2 : (float64.ofUInt64 (f i).toUInt64).eq (f i) = false) :
    client.tick (job.counter ⟨c⟩) Add (some f) i
      = .ret () (job.counter ⟨{ c with valBits := c.valBits.add (f i) }⟩) := by
  rw [(tick_eq client _ _ i).2.1]
  simp [tickValue, job.Add, CounterJob.Add, prometheus.Counter.Add, h1, h2, job.ofCounter]

/-! ## The loop of `Init` -/

/-- The method `newJob` for a name the registry accepts and a kind it knows. -/
theorem newJob_accepted (client : PrometheusClient) (m : Metric) (p : Process)
    (hk : m.MetricType = Gauge ∨ m.MetricType = Counter)
    (hvalid : prometheus.IsValidMetricName m.Name = true) (hnew : m.Name ∉ p.registry) :
    client.newJob m.MetricType m.Name m.Desc p
      = .ret (if m.MetricType = Gauge then job.gauge ⟨prometheus.NewGauge m.Name m.Desc⟩
          else job.counter ⟨prometheus.NewCounter m.Name m.Desc⟩)
        ⟨p.registry ++ [m.Name], p.goroutines⟩ := by
  rcases hk with h | h
  · simp [PrometheusClient.newJob, h, prometheus.promauto.NewGauge, prometheus.MustRegister,
      hvalid, hnew]
  · simp [PrometheusClient.newJob, h, prometheus.promauto.NewCounter,
      prometheus.MustRegister, hvalid, hnew, Gauge, Counter]

/-- The loop of `Init` over descriptors of known kinds with valid names that are new to the
registry and distinct: it returns, having registered every name and started every task, in
list order. -/
theorem initLoop_accepted (client : PrometheusClient) (metrics : List Metric) (p : Process)
    (hk : ∀ m ∈ metrics, m.MetricType = Gauge ∨ m.MetricType = Counter)
    (hvalid : ∀ m ∈ metrics, prometheus.IsValidMetricName m.Name = true)
    (hnew : ∀ m ∈ metrics, m.Name ∉ p.registry)
    (hdistinct : (metrics.map Metric.Name).Nodup) :
    client.initLoop metrics p
      = .ret () ⟨p.registry ++ metrics.map Metric.Name,
          p.goroutines ++ metrics.map (fun m =>
            ⟨if m.MetricType = Gauge then job.gauge ⟨prometheus.NewGauge m.Name m.Desc⟩
              else job.counter ⟨prometheus.NewCounter m.Name m.Desc⟩,
             m.UpdateInterval, m.OperationType, m.Getter⟩)⟩ := by
  induction metrics generalizing p with
  | nil => simp [PrometheusClient.initLoop]
  | cons m rest ih =>
    have hm := newJob_accepted client m p (hk m (List.mem_cons_self _ _))
      (hvalid m (List.mem_cons_self _ _)) (hnew m (List.mem_cons_self _ _))
    rw [List.map_cons, List.nodup_cons] at hdistinct
    simp only [PrometheusClient.initLoop, hm]
    rw [ih]
    · simp
    · exact fun x hx => hk x (List.mem_cons_of_mem _ hx)
    · exact fun x hx => hvalid x (List.mem_cons_of_mem _ hx)
    · intro x hx hmem
      simp only [List.mem_append, List.mem_singleton] at hmem
      rcases hmem with h | h
      · exact hnew x (List.mem_cons_of_mem _ hx) h
      · exact hdistinct.1 (h ▸ List.mem_map_of_mem _ hx)
    · exact hdistinct.2

end monitoring

end Go

namespace Go

namespace monitoring

/-! ## The claims of Part II -/

/-- C2, as stated, fails: a descriptor of kind Gauge with operation Set and the empty name
makes `Init` panic when the gauge is registered, so initialization does not succeed; and
with a good name but the interval 0 the task panics in `time.NewTicker` before any tick. -/
theorem gauge_descriptor_refused :
    ((⟨Handler.handler, []⟩ : PrometheusClient).SetMetrics
        [⟨"", "d", Gauge, Set, 1000000000, none⟩]).Init ⟨[], []⟩
      = .crash "is not a valid metric name" ⟨[], []⟩ ∧
    (⟨Handler.handler, []⟩ : PrometheusClient).runJob
        (job.gauge ⟨prometheus.NewGauge "g" "d"⟩) 0 Set none 1
      = .crash "non-positive interval for NewTicker" (job.gauge ⟨prometheus.NewGauge "g" "d"⟩) := by
  constructor
  · simp [PrometheusClient.Init, PrometheusClient.SetMetrics, PrometheusClient.initLoop,
      PrometheusClient.newJob, prometheus.promauto.NewGauge, prometheus.MustRegister,
      prometheus.IsValidMetricName]
  · simp [PrometheusClient.runJob]

/-- C2, amended: for a descriptor of kind Gauge with any of the five operations, whose name
is valid and not yet registered and whose interval is positive, `Init` returns, having
registered the name and started the task on a fresh gauge; no tick aborts, however many
times the ticker fires; and one tick with producer value `f i` takes a gauge holding `x`
to `f i` for Set, `x + f i` for Add, `x - f i` for Sub, `x + 1` for Increment and `x - 1`
for Decrement, in `float64` arithmetic. -/
theorem gauge_tick_follows_operation (client : PrometheusClient) (m : Metric) (p : Process)
    (hk : m.MetricType = Gauge)
    (hop : m.OperationType = Set ∨ m.OperationType = Add ∨ m.OperationType = Sub ∨
      m.OperationType = Increment ∨ m.OperationType = Decrement)
    (hvalid : prometheus.IsValidMetricName m.Name = true) (hnew : m.Name ∉ p.registry)
    (hinterval : 0 < m.UpdateInterval) :
    (client.SetMetrics [m]).Init p
      = .ret () ⟨p.registry ++ [m.Name],
          p.goroutines ++ [⟨job.gauge ⟨prometheus.NewGauge m.Name m.Desc⟩,
            m.UpdateInterval, m.OperationType, m.Getter⟩]⟩ ∧
    (∀ (g : GaugeJob) (getter : Option (Nat → float64)) (n : Nat),
      ∃ g' : GaugeJob, client.runJob (job.gauge g) m.UpdateInterval m.OperationType getter n
        = .ret () (job.gauge g')) ∧
    (∀ (g : prometheus.Gauge) (f : Nat → float64) (i : Nat),
      client.tick (job.gauge ⟨g⟩) Set (some f) i
        = .ret () (job.gauge ⟨{ g with valBits := f i }⟩) ∧
      client.tick (job.gauge ⟨g⟩) Add (some f) i
        = .ret () (job.gauge ⟨{ g with valBits := g.valBits.add (f i) }⟩) ∧
      client.tick (job.gauge ⟨g⟩) Sub (some f) i
        = .ret () (job.gauge ⟨{ g with valBits := g.valBits.sub (f i) }⟩) ∧
      client.tick (job.gauge ⟨g⟩) Increment (some f) i
        = .ret () (job.gauge ⟨{ g with valBits := g.valBits.add float64.one }⟩) ∧
      client.tick (job.gauge ⟨g⟩) Decrement (some f) i
        = .ret () (job.gauge ⟨{ g with valBits := g.valBits.sub float64.one }⟩)) := by
  refine ⟨?_, ?_, ?_⟩
  · have h := initLoop_accepted (client.SetMetrics [m]) [m] p
      (by simp [hk]) (by simp [hvalid]) (by simp [hnew]) (by simp)
    simpa [PrometheusClient.Init, PrometheusClient.SetMetrics, hk] using h
  · intro g getter n
    rw [runJob_pos _ _ _ _ _ _ hinterval]
    exact runLoop_gauge_alive client g _ getter hop n
  · intro g f i
    exact tick_gauge client g (some f) i

/-- Witness of C2 amended: a gauge named `g` with operation Set and an interval of three
seconds, in a process with nothing registered; its producer returns 7, and a gauge that
held 1 reads 7 after one tick. -/
theorem gauge_tick_follows_operation_witness :
    (⟨Handler.handler, []⟩ : PrometheusClient).tick
        (job.gauge ⟨⟨"g", "d", float64.one⟩⟩) Set (some fun _ => float64.ofUInt64 7) 0
      = .ret () (job.gauge ⟨⟨"g", "d", float64.ofUInt64 7⟩⟩) :=
  ((gauge_tick_follows_operation ⟨Handler.handler, []⟩
    ⟨"g", "d", Gauge, Set, 3000000000, none⟩ ⟨[], []⟩ rfl (Or.inl rfl) (by decide) (by simp)
    (by decide)).2.2 ⟨"g", "d", float64.one⟩ (fun _ => float64.ofUInt64 7) 0).1

/-- C4, as stated, fails.  With a producer that always returns 2^63, both ticks return and
a fresh counter shows 0 after them, while 2 times 2^63 is 2^64: the whole amounts are
summed in a `uint64`, which wraps.  With a producer that always returns 0.1, all ten ticks
return and a fresh counter shows 0.9999999999999999 after them, while 10 times 0.1 is 1:
the sums are rounded. -/
theorem counter_add_is_not_N_times_v :
    (⟨Handler.handler, []⟩ : PrometheusClient).runJob
        (job.counter ⟨prometheus.NewCounter "c" "d"⟩) 1 Add
        (some fun _ => float64.ofUInt64 9223372036854775808) 2
      = .ret () (job.counter ⟨⟨"c", "d", float64.zero, 0⟩⟩) ∧
    (job.counter ⟨⟨"c", "d", float64.zero, 0⟩⟩).value = some float64.zero ∧
    (float64.ofUInt64 2).mul (float64.ofUInt64 9223372036854775808)
      = float64.fin false 1087 0 ∧
    (⟨Handler.handler, []⟩ : PrometheusClient).runJob
        (job.counter ⟨prometheus.NewCounter "c" "d"⟩) 1 Add
        (some fun _ => float64.fin false 1019 2702159776422298) 10
      = .ret () (job.counter ⟨⟨"c", "d", float64.fin false 1022 4503599627370495, 0⟩⟩) ∧
    (job.counter ⟨⟨"c", "d", float64.fin false 1022 4503599627370495, 0⟩⟩).value
      = some (float64.fin false 1022 4503599627370495) ∧
    (float64.ofUInt64 10).mul (float64.fin false 1019 2702159776422298)
      = float64.fin false 1023 0 := by
  have h0 : float64.ofUInt64 0 = float64.zero := by decide
  refine ⟨?_, ?_, by decide!, ?_, ?_, by decide!⟩
  · have hk : (float64.ofUInt64 9223372036854775808).toUInt64 = 9223372036854775808 := by
      decide
    rw [runJob_pos _ _ _ _ _ _ (by decide)]
    simp only [PrometheusClient.runLoop]
    rw [tick_counter_add_whole _ _ (fun _ => float64.ofUInt64 9223372036854775808) 0
      9223372036854775808 rfl hk]
    dsimp only
    rw [tick_counter_add_whole _ _ (fun _ => float64.ofUInt64 9223372036854775808) 1
      9223372036854775808 rfl hk]
    rfl
  · simp only [job.value, prometheus.Counter.get]
    rw [h0, float64.add_zero _ (by decide)]
  · have h1 : (float64.fin false 1019 2702159776422298).lt float64.zero = false := by decide
    have h2 : (float64.ofUInt64 (float64.fin false 1019 2702159776422298).toUInt64).eq
        (float64.fin false 1019 2702159776422298) = false := by decide
    rw [runJob_pos _ _ _ _ _ _ (by decide)]
    simp only [PrometheusClient.runLoop]
    simp only [tick_counter_add_float _ _ (fun _ => float64.fin false 1019 2702159776422298)
      _ h1 h2]
    simp only [prometheus.NewCounter]
    refine congrArg (fun v => Exec.ret () (job.counter ⟨⟨"c", "d", v, 0⟩⟩)) ?_
    decide!
  · simp only [job.value, prometheus.Counter.get]
    rw [h0, float64.add_zero _ (by decide)]

/-- C4, amended: when the producer returns the whole number `k < 2^53`, a tick of a counter
handle under operation Add returns and adds exactly `k` to the counter's whole-number
accumulator (modulo 2^64); and with a producer that always returns `k`, a positive
interval, `N < 2^53` and `N * k < 2^53`, a fresh counter shows `N` times `k` after `N`
firings: the `float64` product of `N` and `k`, which is the whole number `N * k`
exactly. -/
theorem counter_add_whole_numbers (client : PrometheusClient) (k : Nat)
    (hk : k < 9007199254740992) :
    (∀ (c : prometheus.Counter) (f : Nat → float64) (i : Nat), f i = float64.ofUInt64 k →
      client.tick (job.counter ⟨c⟩) Add (some f) i
        = .ret () (job.counter
            ⟨{ c with valInt := (c.valInt + k) % 18446744073709551616 }⟩)) ∧
    (∀ (name desc : String) (interval : Int) (N : Nat), 0 < interval →
      N < 9007199254740992 → N * k < 9007199254740992 →
      client.runJob (job.counter ⟨prometheus.NewCounter name desc⟩) interval Add
          (some fun _ => float64.ofUInt64 k) N
        = .ret () (job.counter ⟨⟨name, desc, float64.zero, N * k⟩⟩) ∧
      (job.counter ⟨⟨name, desc, float64.zero, N * k⟩⟩).value
        = some ((float64.ofUInt64 N).mul (float64.ofUInt64 k)) ∧
      (float64.ofUInt64 N).mul (float64.ofUInt64 k) = float64.ofUInt64 (N * k) ∧
      (float64.ofUInt64 (N * k)).toUInt64 = N * k) := by
  have hkk := float64.toUInt64_ofUInt64 k hk
  have htick : ∀ (c : prometheus.Counter) (f : Nat → float64) (i : Nat),
      f i = float64.ofUInt64 k →
      client.tick (job.counter ⟨c⟩) Add (some f) i
        = .ret () (job.counter
            ⟨{ c with valInt := (c.valInt + k) % 18446744073709551616 }⟩) :=
    fun c f i hf => tick_counter_add_whole client c f i k hf hkk
  have hrun : ∀ (name desc : String) (N : Nat), N * k < 9007199254740992 →
      client.runLoop (job.counter ⟨prometheus.NewCounter name desc⟩) Add
          (some fun _ => float64.ofUInt64 k) N
        = .ret () (job.counter ⟨⟨name, desc, float64.zero, N * k⟩⟩) := by
    intro name desc N
    induction N with
    | zero =>
      intro _
      simp [PrometheusClient.runLoop, prometheus.NewCounter]
    | succ N ih =>
      intro hN
      have hN' : N * k < 9007199254740992 := by
        have : N * k ≤ (N + 1) * k := Nat.mul_le_mul_right _ (Nat.le_succ N)
        omega
      simp only [PrometheusClient.runLoop, ih hN']
      rw [htick _ (fun _ => float64.ofUInt64 k) N rfl]
      have : (N * k + k) % 18446744073709551616 = (N + 1) * k := by
        rw [Nat.add_mul, Nat.one_mul] at hN ⊢
        omega
      simp [this]
  refine ⟨htick, ?_⟩
  intro name desc interval N hpos hN53 hN
  have hmul := float64.mul_ofUInt64 N k hN53 hk hN
  refine ⟨?_, ?_, hmul, float64.toUInt64_ofUInt64 _ hN⟩
  · rw [runJob_pos _ _ _ _ _ _ hpos]
    exact hrun name desc N hN
  · simp only [job.value, prometheus.Counter.get]
    rw [float64.zero_add _ (float64.ofUInt64_props _).2.2, hmul]

/-- Witness of C4 amended: the producer returns 3; one tick takes the whole-number
accumulator of a fresh counter from 0 to 3, and after four firings the counter shows 12. -/
theorem counter_add_whole_numbers_witness :
    (⟨Handler.handler, []⟩ : PrometheusClient).tick
        (job.counter ⟨prometheus.NewCounter "c" "d"⟩) Add (some fun _ => float64.ofUInt64 3) 0
      = .ret () (job.counter ⟨{ prometheus.NewCounter "c" "d" with
          valInt := ((prometheus.NewCounter "c" "d").valInt + 3) % 18446744073709551616 }⟩) ∧
    (job.counter ⟨⟨"c", "d", float64.zero, 4 * 3⟩⟩).value
      = some ((float64.ofUInt64 4).mul (float64.ofUInt64 3)) :=
  have h := counter_add_whole_numbers ⟨Handler.handler, []⟩ 3 (by decide)
  ⟨h.1 (prometheus.NewCounter "c" "d") (fun _ => float64.ofUInt64 3) 0 rfl,
   (h.2 "c" "d" 1 4 (by decide) (by decide) (by decide)).2.1⟩

/-- C5: the code lets a counter go down.  With a producer that always returns 2^63 under
operation Add, both ticks return; a fresh counter shows 2^63 after the first and 0 after
the second, and 0 is below 2^63.  And a tick under Add whose producer returns NaN returns
too and leaves the counter showing NaN, which is not at or above the 0 it showed. -/
theorem counter_goes_down :
    (⟨Handler.handler, []⟩ : PrometheusClient).runJob
        (job.counter ⟨prometheus.NewCounter "c" "d"⟩) 1 Add
        (some fun _ => float64.ofUInt64 9223372036854775808) 1
      = .ret () (job.counter ⟨⟨"c", "d", float64.zero, 9223372036854775808⟩⟩) ∧
    (job.counter ⟨⟨"c", "d", float64.zero, 9223372036854775808⟩⟩).value
      = some (float64.fin false 1086 0) ∧
    (⟨Handler.handler, []⟩ : PrometheusClient).runJob
        (job.counter ⟨prometheus.NewCounter "c" "d"⟩) 1 Add
        (some fun _ => float64.ofUInt64 9223372036854775808) 2
      = .ret () (job.counter ⟨⟨"c", "d", float64.zero, 0⟩⟩) ∧
    (job.counter ⟨⟨"c", "d", float64.zero, 0⟩⟩).value = some float64.zero ∧
    float64.lt float64.zero (float64.fin false 1086 0) = true ∧
    (⟨Handler.handler, []⟩ : PrometheusClient).tick
        (job.counter ⟨prometheus.NewCounter "c" "d"⟩) Add (some fun _ => float64.nan) 0
      = .ret () (job.counter ⟨⟨"c", "d", float64.nan, 0⟩⟩) ∧
    (job.counter ⟨⟨"c", "d", float64.nan, 0⟩⟩).value = some float64.nan ∧
    float64.le float64.zero float64.nan = false := by
  have hk : (float64.ofUInt64 9223372036854775808).toUInt64 = 9223372036854775808 := by
    decide
  have h63 : float64.ofUInt64 9223372036854775808 = float64.fin false 1086 0 := by decide
  refine ⟨?_, ?_, ?_, ?_, by decide, ?_, ?_, by decide⟩
  · rw [runJob_pos _ _ _ _ _ _ (by decide)]
    simp only [PrometheusClient.runLoop]
    rw [tick_counter_add_whole _ _ (fun _ => float64.ofUInt64 9223372036854775808) 0 9223372036854775808 rfl hk]
    rfl
  · simp only [job.value, prometheus.Counter.get]
    rw [float64.zero_add _ (float64.ofUInt64_props _).2.2, h63]
  · rw [runJob_pos _ _ _ _ _ _ (by decide)]
    simp only [PrometheusClient.runLoop]
    rw [tick_counter_add_whole _ _ (fun _ => float64.ofUInt64 9223372036854775808) 0 9223372036854775808 rfl hk]
    dsimp only
    rw [tick_counter_add_whole _ _ (fun _ => float64.ofUInt64 9223372036854775808) 1 9223372036854775808 rfl hk]
    rfl
  · decide
  · rw [tick_counter_add_float _ _ (fun _ => float64.nan) 0 (by decide) (by decide)]
    rfl
  · decide

/-- C7: the value a tick passes to the operation is the producer's result when there is a
producer, and 0 when there is none.  For every handle, a tick with the producer `f` calls
the method the operation tag selects with `f i` (Set, Add, Subtract) and a tick without a
producer calls it with 0; so a gauge under Set shows `f i`, or 0 without a producer; and a
tick, like a whole run, without a producer is the same as with a producer that returns 0,
for every handle and every operation tag. -/
theorem tick_passes_producer_value_or_zero (client : PrometheusClient) (j : job) (i : Nat) :
    (∀ f : Nat → float64,
      client.tick j Set (some f) i = j.Set (f i) ∧
      client.tick j Add (some f) i = j.Add (f i) ∧
      client.tick j Sub (some f) i = j.Subtract (f i) ∧
      client.tick j Increment (some f) i = j.Increment ∧
      client.tick j Decrement (some f) i = j.Decrement) ∧
    (client.tick j Set none i = j.Set float64.zero ∧
      client.tick j Add none i = j.Add float64.zero ∧
      client.tick j Sub none i = j.Subtract float64.zero ∧
      client.tick j Increment none i = j.Increment ∧
      client.tick j Decrement none i = j.Decrement) ∧
    (∀ (g : prometheus.Gauge) (f : Nat → float64),
      (client.tick (job.gauge ⟨g⟩) Set (some f) i).state.value = some (f i) ∧
      (client.tick (job.gauge ⟨g⟩) Set none i).state.value = some float64.zero) ∧
    (∀ op : Int, client.tick j op none i = client.tick j op (some fun _ => float64.zero) i) ∧
    (∀ (op interval : Int) (n : Nat),
      client.runJob j interval op none n
        = client.runJob j interval op (some fun _ => float64.zero) n) := by
  refine ⟨fun f => tick_eq client j (some f) i, tick_eq client j none i, ?_, fun _ => rfl, ?_⟩
  · intro g f
    rw [(tick_gauge client g (some f) i).1, (tick_gauge client g none i).1]
    exact ⟨rfl, rfl⟩
  · intro op interval n
    unfold PrometheusClient.runJob
    split_ifs
    · rfl
    · induction n with
      | zero => rfl
      | succ n ih =>
        simp only [PrometheusClient.runLoop, ih]
        rfl

/-- C8, as stated, fails: for two descriptors of kind Gauge with the same name `Init`
panics when it registers the second, after it has made one handle and started one task.
And for a descriptor whose interval is 0, the goroutine `Init` starts panics in
`time.NewTicker` at once, so no task is scheduled for it. -/
theorem Init_panics_on_a_name_already_registered :
    ((⟨Handler.handler, []⟩ : PrometheusClient).SetMetrics
        [⟨"x", "d", Gauge, Set, 1000000000, none⟩,
         ⟨"x", "d", Gauge, Set, 1000000000, none⟩]).Init ⟨[], []⟩
      = .crash "duplicate metrics collector registration attempted"
          ⟨["x"], [⟨job.gauge ⟨prometheus.NewGauge "x" "d"⟩, 1000000000, Set, none⟩]⟩ ∧
    ((⟨Handler.handler, []⟩ : PrometheusClient).SetMetrics
        [⟨"y", "d", Gauge, Set, 0, none⟩]).Init ⟨[], []⟩
      = .ret () ⟨["y"], [⟨job.gauge ⟨prometheus.NewGauge "y" "d"⟩, 0, Set, none⟩]⟩ ∧
    (⟨Handler.handler, []⟩ : PrometheusClient).runJob
        (job.gauge ⟨prometheus.NewGauge "y" "d"⟩) 0 Set none 0
      = .crash "non-positive interval for NewTicker"
          (job.gauge ⟨prometheus.NewGauge "y" "d"⟩) := by
  refine ⟨?_, ?_, ?_⟩
  · simp [PrometheusClient.Init, PrometheusClient.SetMetrics, PrometheusClient.initLoop,
      PrometheusClient.newJob, prometheus.promauto.NewGauge, prometheus.MustRegister,
      prometheus.IsValidMetricName]
  · simp [PrometheusClient.Init, PrometheusClient.SetMetrics, PrometheusClient.initLoop,
      PrometheusClient.newJob, prometheus.promauto.NewGauge, prometheus.MustRegister,
      prometheus.IsValidMetricName]
  · simp [PrometheusClient.runJob]

/-- C8, amended: when every descriptor of the list has kind Gauge or Counter, a valid
name and a positive interval, and the names are distinct and not yet registered, `Init`
returns, having made exactly one handle and started exactly one task per descriptor, in
list order: the name of each descriptor is registered, its handle is a fresh gauge or
counter (by its kind) with its name and description, and its task holds that handle with
the descriptor's interval, operation and producer, and gets its ticker.  An empty list
makes none. -/
theorem Init_one_handle_and_task_per_descriptor (client : PrometheusClient)
    (metrics : List Metric) (p : Process)
    (hk : ∀ m ∈ metrics, m.MetricType = Gauge ∨ m.MetricType = Counter)
    (hvalid : ∀ m ∈ metrics, prometheus.IsValidMetricName m.Name = true)
    (hnew : ∀ m ∈ metrics, m.Name ∉ p.registry)
    (hdistinct : (metrics.map Metric.Name).Nodup)
    (hinterval : ∀ m ∈ metrics, 0 < m.UpdateInterval) :
    (client.SetMetrics metrics).Init p
      = .ret () ⟨p.registry ++ metrics.map Metric.Name,
          p.goroutines ++ metrics.map (fun m =>
            ⟨if m.MetricType = Gauge then job.gauge ⟨prometheus.NewGauge m.Name m.Desc⟩
              else job.counter ⟨prometheus.NewCounter m.Name m.Desc⟩,
             m.UpdateInterval, m.OperationType, m.Getter⟩)⟩ ∧
    (∀ m ∈ metrics, ∀ j : job,
      client.runJob j m.UpdateInterval m.OperationType m.Getter 0 = .ret () j) ∧
    (client.SetMetrics []).Init p = .ret () p := by
  refine ⟨?_, ?_, ?_⟩
  · exact initLoop_accepted _ metrics p hk hvalid hnew hdistinct
  · intro m hm j
    rw [runJob_pos _ _ _ _ _ _ (hinterval m hm)]
    rfl
  · simp [PrometheusClient.Init, PrometheusClient.SetMetrics, PrometheusClient.initLoop]

/-- Witness of C8 amended: a gauge descriptor followed by a counter descriptor, in a
process with nothing registered. -/
theorem Init_one_handle_and_task_per_descriptor_witness :
    ((⟨Handler.handler, []⟩ : PrometheusClient).SetMetrics
        [⟨"g", "d", Gauge, Set, 3000000000, none⟩,
         ⟨"c", "e", Counter, Increment, 5000000000, none⟩]).Init ⟨[], []⟩
      = .ret () ⟨["g", "c"],
          [⟨job.gauge ⟨prometheus.NewGauge "g" "d"⟩, 3000000000, Set, none⟩,
           ⟨job.counter ⟨prometheus.NewCounter "c" "e"⟩, 5000000000, Increment, none⟩]⟩ := by
  have h := (Init_one_handle_and_task_per_descriptor ⟨Handler.handler, []⟩
    [⟨"g", "d", Gauge, Set, 3000000000, none⟩,
     ⟨"c", "e", Counter, Increment, 5000000000, none⟩]
    ⟨[], []⟩ (by simp) (by decide) (by simp) (by decide) (by decide)).1
  simpa [Gauge, Counter] using h

end monitoring

end Go
